import Mathlib

/-!
Verification of the r9cc compiler front-end (preprocessor, semantic
analyzer, IR generator) against its natural-language specification.

Shallow embedding: each of the three source files (`preprocess.rs`,
`sema.rs`, `gen_ir.rs`) is translated into its own namespace.  The AST
and token types defined by the out-of-scope lexer/parser modules
(`token.rs`, `parse.rs`) are modelled from their usage in the three
in-scope files and from the specification.  Loops whose termination in
the source follows from a strictly advancing cursor are embedded either
as structural recursion on the remaining input or with an explicit fuel
parameter.
-/

namespace Pre

/-- Modelled from the spec: `token.rs` is not part of the supplied
sources.  A token kind is an identifier, a numeric or string literal, a
punctuation mark, an end-of-line marker, or the parameter placeholder
used inside macro bodies (spec section 3, "Token"). Only the kinds the
preprocessor inspects are needed. -/
inductive TokenType where
  | ident (s : String)
  | num (v : Int)
  | str (s : String) (len : Nat)
  | param (n : Nat)
  | leftParen
  | rightParen
  | comma
  | newLine
  | hashMark
  | plus
  | minus
  | mul
  deriving DecidableEq

/-- Modelled from the spec: a token carries its kind, its source
position (here reduced to the 1-based source line that
`Token::get_line_number` computes from the stored buffer and offset),
and the stringize flag used during macro substitution. -/
structure Token where
  ty : TokenType
  line : Nat
  stringize : Bool
  deriving DecidableEq

/-- Modelled from the spec: `get_line_number` returns the 1-based line
of the token's own recorded source position. -/
def Token.get_line_number (t : Token) : Nat := t.line

/-- Modelled from the spec: fresh tokens built during preprocessing are
created with source offset 0 (`Token::new(ty, 0, ..)`), whose line is 1. -/
def Token.mkNew (ty : TokenType) : Token := ⟨ty, 1, false⟩

/-- Modelled from the spec: the literal text of a token, used by
stringizing ("the argument's tokens rendered as their literal text"). -/
def TokenType.tokstr : TokenType → String
  | .ident s => s
  | .num v => toString v
  | .str s _ => s
  | .param _ => "param"
  | .leftParen => "("
  | .rightParen => ")"
  | .comma => ","
  | .newLine => "\n"
  | .hashMark => "#"
  | .plus => "+"
  | .minus => "-"
  | .mul => "*"

/-- `MacroType` from `preprocess.rs`: object-like, or function-like with
its parameter-name list. -/
inductive MacType where
  | objlike
  | funclike (params : List String)
  deriving DecidableEq

/-- `Macro` from `preprocess.rs`: kind plus replacement token list. -/
structure MacroDef where
  ty : MacType
  tokens : List Token
  deriving DecidableEq

/-- `Preprocess` from `preprocess.rs`: one frame per active
inclusion/expansion scope (input, accumulated output, cursor, link to
the suspended parent frame). -/
inductive PP where
  | mk (input : List Token) (output : List Token) (pos : Nat) (next : Option PP)

def PP.input : PP → List Token
  | .mk i _ _ _ => i

def PP.output : PP → List Token
  | .mk _ o _ _ => o

def PP.pos : PP → Nat
  | .mk _ _ p _ => p

def PP.next : PP → Option PP
  | .mk _ _ _ n => n

def PP.withPos : PP → Nat → PP
  | .mk i o _ n, p => .mk i o p n

def PP.withOutput : PP → List Token → PP
  | .mk i _ p n, o => .mk i o p n

/-- `Context` from `preprocess.rs`: the macro table and the active
preprocessor frame.  The external lexer (`tokenize`, out of scope per
spec section 1) is an oracle function carried in the context. -/
structure Ctx where
  macros : List (String × MacroDef)
  pp : PP
  tokenizeFn : String → List Token

/-- `HashMap::insert`: replace an existing binding or append. -/
def macInsert (name : String) (m : MacroDef) :
    List (String × MacroDef) → List (String × MacroDef)
  | [] => [(name, m)]
  | (n, m0) :: rest =>
      if n = name then (name, m) :: rest else (n, m0) :: macInsert name m rest

def macGet (name : String) (ms : List (String × MacroDef)) : Option MacroDef :=
  (ms.find? (fun p => p.1 = name)).map (·.2)

def Ctx.eof (c : Ctx) : Bool := c.pp.pos == c.pp.input.length

def Ctx.withPos (c : Ctx) (p : Nat) : Ctx := { c with pp := c.pp.withPos p }

def Ctx.pushOutput (c : Ctx) (t : Token) : Ctx :=
  { c with pp := c.pp.withOutput (c.pp.output ++ [t]) }

def Ctx.appendOutput (c : Ctx) (ts : List Token) : Ctx :=
  { c with pp := c.pp.withOutput (c.pp.output ++ ts) }

/-- `Context::next`. -/
def Ctx.nextTok (c : Ctx) : Option (Token × Ctx) :=
  if c.eof then none
  else
    match c.pp.input.get? c.pp.pos with
    | some t => some (t, c.withPos (c.pp.pos + 1))
    | none => none

/-- `Context::peek`. -/
def Ctx.peek (c : Ctx) : Option Token := c.pp.input.get? c.pp.pos

/-- `Context::get`: next token must have the given kind, else a fatal
error at that token. -/
def Ctx.getTok (c : Ctx) (ty : TokenType) (msg : String) :
    Except String (Token × Ctx) :=
  match c.nextTok with
  | none => .error msg
  | some (t, c') => if t.ty = ty then .ok (t, c') else .error msg

/-- `Context::ident`: next token must be an identifier or string. -/
def Ctx.identTok (c : Ctx) (msg : String) : Except String (String × Ctx) :=
  match c.nextTok with
  | none => .error msg
  | some (t, c') =>
      match t.ty with
      | .ident s => .ok (s, c')
      | .str s _ => .ok (s, c')
      | _ => .error msg

/-- `Context::consume`. -/
def Ctx.consume (c : Ctx) (ty : TokenType) : Bool × Ctx :=
  match c.peek with
  | none => (false, c)
  | some t => if t.ty = ty then (true, c.withPos (c.pp.pos + 1)) else (false, c)

/-- Helper for `read_until_eol`: tokens up to (excluding) the first
newline, together with the number of tokens consumed (newline
included when present). -/
def splitEol : List Token → List Token × Nat
  | [] => ([], 0)
  | t :: rest =>
      if t.ty = .newLine then ([], 1)
      else
        let (v, n) := splitEol rest
        (t :: v, n + 1)

/-- `Context::read_until_eol`. -/
def Ctx.readUntilEol (c : Ctx) : List Token × Ctx :=
  let (v, n) := splitEol (c.pp.input.drop c.pp.pos)
  (v, c.withPos (c.pp.pos + n))

/-- Helper for `read_one_arg`: walk the remaining input tracking
parenthesis nesting depth; a comma or right parenthesis terminates the
argument only at depth zero; the terminator itself is not consumed.
Returns the argument tokens and the number of tokens consumed. -/
def readOneArgAux : List Token → Nat → Except String (List Token × Nat)
  | [], _ => .error "unclosed macro argument"
  | t :: rest, level =>
      if level = 0 ∧ (t.ty = .rightParen ∨ t.ty = .comma) then .ok ([], 0)
      else
        let level' :=
          if t.ty = .leftParen then level + 1
          else if t.ty = .rightParen then level - 1
          else level
        match readOneArgAux rest level' with
        | .ok (v, n) => .ok (t :: v, n + 1)
        | .error e => .error e

/-- `read_one_arg`. -/
def readOneArg (c : Ctx) : Except String (List Token × Ctx) :=
  match readOneArgAux (c.pp.input.drop c.pp.pos) 0 with
  | .ok (v, n) => .ok (v, c.withPos (c.pp.pos + n))
  | .error e => .error e

/-- Loop of `read_args` after the first argument; each iteration first
consumes a comma, so the fuel is bounded by the remaining input. -/
def readArgsLoop (fuel : Nat) (c : Ctx) (acc : List (List Token)) :
    Except String (List (List Token) × Ctx) :=
  match fuel with
  | 0 => .error "out of fuel"
  | fuel + 1 =>
      match c.consume .rightParen with
      | (true, c') => .ok (acc, c')
      | (false, _) =>
          match c.getTok .comma "comma expected" with
          | .error e => .error e
          | .ok (_, c1) =>
              match readOneArg c1 with
              | .error e => .error e
              | .ok (v, c2) => readArgsLoop fuel c2 (acc ++ [v])

/-- `read_args`. -/
def readArgs (fuel : Nat) (c : Ctx) :
    Except String (List (List Token) × Ctx) :=
  match c.consume .rightParen with
  | (true, c') => .ok ([], c')
  | (false, _) =>
      match readOneArg c with
      | .error e => .error e
      | .ok (v, c1) => readArgsLoop fuel c1 [v]

/-- `stringize`: one synthesized string token whose text is the
argument's tokens rendered as literal text, space-joined. -/
def stringizeTokens (tokens : List Token) : Token :=
  let sb := String.intercalate " " (tokens.map (fun t => t.ty.tokstr))
  ⟨.str sb sb.length, 1, false⟩

/-- `add_special_macro`: the identifier `__LINE__` is special-cased to
emit a numeric literal holding the line number of the token `t` itself. -/
def addSpecial (t : Token) (c : Ctx) : Bool × Ctx :=
  if t.ty = .ident "__LINE__" then
    (true, c.pushOutput (Token.mkNew (.num (t.get_line_number : Int))))
  else (false, c)

/-- `apply_objlike`: each body token is appended to output, except the
`__LINE__` special case. -/
def applyObjlike (tokens : List Token) (c : Ctx) : Ctx :=
  tokens.foldl
    (fun c t =>
      match addSpecial t c with
      | (true, c') => c'
      | (false, c') => c'.pushOutput t)
    c

/-- Substitution loop of `apply_funclike` (after argument parsing and
the arity check): parameter placeholders are spliced or stringized. -/
def substFunclike (tokens : List Token) (args : List (List Token)) (c : Ctx) :
    Except String Ctx :=
  match tokens with
  | [] => .ok c
  | t :: rest =>
      match addSpecial t c with
      | (true, c') => substFunclike rest args c'
      | (false, c') =>
          match t.ty with
          | .param val =>
              match args.get? val with
              | none => .error "index out of bounds"
              | some arg =>
                  if t.stringize then
                    substFunclike rest args (c'.pushOutput (stringizeTokens arg))
                  else
                    substFunclike rest args (c'.appendOutput arg)
          | _ => substFunclike rest args (c'.pushOutput t)

/-- `apply_funclike`: parse the parenthesized argument list, fail
fatally unless the argument count equals the parameter count, then
substitute. -/
def applyFunclike (fuel : Nat) (tokens : List Token) (params : List String)
    (c : Ctx) : Except String Ctx :=
  match c.getTok .leftParen "comma expected" with
  | .error e => .error e
  | .ok (_, c0) =>
      match readArgs fuel c0 with
      | .error e => .error e
      | .ok (args, c1) =>
          if params.length ≠ args.length then
            .error "number of parameter does not match"
          else substFunclike tokens args c1

/-- `apply`. -/
def applyMac (fuel : Nat) (m : MacroDef) (c : Ctx) : Except String Ctx :=
  match m.ty with
  | .objlike => .ok (applyObjlike m.tokens c)
  | .funclike params => applyFunclike fuel m.tokens params c

/-- Last-wins parameter index map built by `replace_params`
(`HashMap::insert` overwrites, so a repeated name maps to its last
index). -/
def paramIndex (params : List String) (name : String) : Option Nat :=
  (params.enum.reverse.find? (fun p => p.2 = name)).map (·.1)

/-- First pass of `replace_params`: rewrite parameter identifiers in the
body to positional placeholders. -/
def replaceParams1 (params : List String) (ts : List Token) : List Token :=
  ts.map (fun t =>
    match t.ty with
    | .ident name =>
        match paramIndex params name with
        | some n => Token.mkNew (.param n)
        | none => t
    | _ => t)

/-- Second pass of `replace_params`: a `#` immediately preceding a token
marks that token for stringizing and the `#` itself is dropped. -/
def replaceParams2 : List Token → List Token
  | t1 :: t2 :: rest =>
      if t1.ty = .hashMark then
        { t2 with stringize := true } :: replaceParams2 rest
      else t1 :: replaceParams2 (t2 :: rest)
  | l => l

/-- `replace_params` on a function-like macro body. -/
def replaceParams (params : List String) (ts : List Token) : List Token :=
  replaceParams2 (replaceParams1 params ts)

/-- Parameter-list loop of the function-like `#define` handler; each
iteration consumes at least the comma, so fuel is bounded by the input. -/
def paramListLoop (fuel : Nat) (c : Ctx) (acc : List String) :
    Except String (List String × Ctx) :=
  match fuel with
  | 0 => .error "out of fuel"
  | fuel + 1 =>
      match c.consume .rightParen with
      | (true, c') => .ok (acc, c')
      | (false, _) =>
          match c.getTok .comma "comma expected" with
          | .error e => .error e
          | .ok (_, c1) =>
              match c1.identTok "parameter name expected" with
              | .error e => .error e
              | .ok (p, c2) => paramListLoop fuel c2 (acc ++ [p])

/-- `funclike_macro`: parse the parameter names (at least one is
demanded before any closing parenthesis is accepted), take the rest of
the line as body, pre-resolve parameters, and register the macro. -/
def defineFunclike (fuel : Nat) (name : String) (c : Ctx) :
    Except String Ctx :=
  match c.identTok "parameter name expected" with
  | .error e => .error e
  | .ok (p0, c0) =>
      match paramListLoop fuel c0 [p0] with
      | .error e => .error e
      | .ok (params, c1) =>
          let (body, c2) := c1.readUntilEol
          let m : MacroDef := ⟨.funclike params, replaceParams params body⟩
          .ok { c2 with macros := macInsert name m c2.macros }

/-- `objlike_macro`. -/
def defineObjlike (name : String) (c : Ctx) : Ctx :=
  let (body, c1) := c.readUntilEol
  { c1 with macros := macInsert name ⟨.objlike, body⟩ c1.macros }

/-- `define`. -/
def defineDirective (fuel : Nat) (c : Ctx) : Except String Ctx :=
  match c.identTok "macro name expected" with
  | .error e => .error e
  | .ok (name, c0) =>
      match c0.consume .leftParen with
      | (true, c1) => defineFunclike fuel name c1
      | (false, c1) => .ok (defineObjlike name c1)

/-- `include`. -/
def includeDirective (c : Ctx) : Except String Ctx :=
  match c.identTok "string expected" with
  | .error e => .error e
  | .ok (path, c0) =>
      match c0.nextTok with
      | none => .error "newline expected"
      | some (t, c1) =>
          if t.ty = .newLine then .ok (c1.appendOutput (c1.tokenizeFn path))
          else .error "newline expected"

/-- Main loop of `preprocess`; fuel is bounded by the input length since
every iteration advances the cursor. -/
def ppLoop (fuel : Nat) (c : Ctx) : Except String Ctx :=
  match fuel with
  | 0 => if c.eof then .ok c else .error "out of fuel"
  | fuel + 1 =>
      if c.eof then .ok c
      else
        match c.nextTok with
        | none => .error "bad cursor"
        | some (t, c0) =>
            match t.ty with
            | .ident name =>
                match macGet name c0.macros with
                | some m =>
                    match applyMac fuel m c0 with
                    | .error e => .error e
                    | .ok c1 => ppLoop fuel c1
                | none => ppLoop fuel (c0.pushOutput t)
            | .hashMark =>
                match c0.identTok "identifier expected" with
                | .error e => .error e
                | .ok (d, c1) =>
                    if d = "define" then
                      match defineDirective fuel c1 with
                      | .error e => .error e
                      | .ok c2 => ppLoop fuel c2
                    else if d = "include" then
                      match includeDirective c1 with
                      | .error e => .error e
                      | .ok c2 => ppLoop fuel c2
                    else .error "unknown directive"
            | _ => ppLoop fuel (c0.pushOutput t)

/-- `preprocess`: push a fresh frame over `tokens`, run the loop, return
the frame's accumulated output and reactivate the parent frame. -/
def preprocessRun (fuel : Nat) (tokens : List Token) (c : Ctx) :
    Except String (List Token × Ctx) :=
  let c0 : Ctx := { c with pp := .mk tokens [] 0 (some c.pp) }
  match ppLoop fuel c0 with
  | .error e => .error e
  | .ok c1 =>
      match c1.pp.next with
      | none => .error "no parent frame"
      | some parent => .ok (c1.pp.output, { c1 with pp := parent })

end Pre

namespace Sema

/-- Modelled from the spec: the token kinds `sema.rs` distinguishes on a
binary operator node (`token.rs` is not part of the supplied sources). -/
inductive TokenTypeS where
  | plus
  | minus
  | equal
  | mul
  | div
  | lessThan
  deriving DecidableEq

/-- `Scope` (declared in the crate root, modelled from its usage):
local storage is a stack offset, global storage carries initializer
data, length and the external-linkage flag. -/
inductive ScopeS where
  | localS (offset : Nat)
  | globalS (data : String) (len : Nat) (isExtern : Bool)
  deriving DecidableEq

mutual

/-- `Ctype` (modelled from the spec, section 3):
`Int | Ptr(T) | Array(T, len) | Struct(members) | Void`. -/
inductive CtypeS where
  | int : CtypeS
  | ptr : TypeS → CtypeS
  | ary : TypeS → Nat → CtypeS
  | struc : List NodeS → CtypeS
  | void : CtypeS

/-- `Type` (modelled from the spec): a `Ctype` with byte size and
alignment. -/
inductive TypeS where
  | mk : CtypeS → Nat → Nat → TypeS

/-- `NodeType` (from `parse.rs`, modelled from its usage in `sema.rs`
and from the spec; `logand`/`logor` are the short-circuit forms the IR
generator of this repository consumes). -/
inductive NodeTypeS where
  | num : Int → NodeTypeS
  | str : String → Nat → NodeTypeS
  | ident : String → NodeTypeS
  | vardef : String → Option NodeS → ScopeS → NodeTypeS
  | lvar : ScopeS → NodeTypeS
  | gvar : String → String → Nat → NodeTypeS
  | ifN : NodeS → NodeS → Option NodeS → NodeTypeS
  | ternary : NodeS → NodeS → NodeS → NodeTypeS
  | forN : NodeS → NodeS → NodeS → NodeS → NodeTypeS
  | doWhile : NodeS → NodeS → NodeTypeS
  | dot : NodeS → String → Nat → NodeTypeS
  | binOp : TokenTypeS → NodeS → NodeS → NodeTypeS
  | preInc : NodeS → NodeTypeS
  | preDec : NodeS → NodeTypeS
  | postInc : NodeS → NodeTypeS
  | postDec : NodeS → NodeTypeS
  | neg : NodeS → NodeTypeS
  | exclamation : NodeS → NodeTypeS
  | addr : NodeS → NodeTypeS
  | deref : NodeS → NodeTypeS
  | retN : NodeS → NodeTypeS
  | exprStmt : NodeS → NodeTypeS
  | sizeofNode : NodeS → NodeTypeS
  | alignofNode : NodeS → NodeTypeS
  | call : String → List NodeS → NodeTypeS
  | func : String → List NodeS → NodeS → Nat → NodeTypeS
  | compStmt : List NodeS → NodeTypeS
  | vecStmt : List NodeS → NodeTypeS
  | stmtExpr : NodeS → NodeTypeS
  | null : NodeTypeS
  | logand : NodeS → NodeS → NodeTypeS
  | logor : NodeS → NodeS → NodeTypeS

/-- `Node` (from `parse.rs`, modelled from its usage in `sema.rs`): an
operation tag plus an attached type. -/
inductive NodeS where
  | mk : NodeTypeS → TypeS → NodeS

end

def TypeS.ty : TypeS → CtypeS
  | .mk c _ _ => c

def TypeS.size : TypeS → Nat
  | .mk _ s _ => s

def TypeS.align : TypeS → Nat
  | .mk _ _ a => a

def NodeS.op : NodeS → NodeTypeS
  | .mk o _ => o

def NodeS.ty : NodeS → TypeS
  | .mk _ t => t

def NodeS.withOp (n : NodeS) (o : NodeTypeS) : NodeS :=
  match n with
  | .mk _ t => .mk o t

def NodeS.withTy (n : NodeS) (t : TypeS) : NodeS :=
  match n with
  | .mk o _ => .mk o t

/-- `Type::int_ty` (modelled from the spec: `int` has size 4, align 4). -/
def intTy : TypeS := .mk .int 4 4

/-- `Type::ptr_to` (modelled from the spec: pointers are 8 bytes). -/
def ptrTo (t : TypeS) : TypeS := .mk (.ptr t) 8 8

/-- `Node::int_ty` (modelled from its usage: an integer literal node). -/
def NodeS.intNode (v : Int) : NodeS := .mk (.num v) intTy

/-- `Var` (declared in the crate root, modelled from its usage). -/
structure VarS where
  ty : TypeS
  name : String
  scope : ScopeS

/-- `roundup` from `util.rs` (not in the supplied sources).  Modelled
from the spec: "the cursor is rounded up to the variable's alignment". -/
def roundup (x align : Nat) : Nat := (x + align - 1) / align * align

/-- `Env` from `sema.rs`: a chained scope, innermost first. -/
inductive EnvS where
  | mk : List (String × VarS) → Option EnvS → EnvS

def EnvS.vars : EnvS → List (String × VarS)
  | .mk v _ => v

def EnvS.next : EnvS → Option EnvS
  | .mk _ n => n

/-- `HashMap::insert` on a scope's variable map. -/
def varsInsert (name : String) (v : VarS) :
    List (String × VarS) → List (String × VarS)
  | [] => [(name, v)]
  | (n, v0) :: rest =>
      if n = name then (name, v) :: rest else (n, v0) :: varsInsert name v rest

/-- `Env::find`: walk the chain from innermost to outermost. -/
def EnvS.find (name : String) : EnvS → Option VarS
  | .mk vars next =>
      match vars.find? (fun p => p.1 = name) with
      | some p => some p.2
      | none =>
          match next with
          | some e => e.find name
          | none => none

/-- The mutable singletons of `sema.rs` (`STRLABEL`, `GLOBALS`,
`STACKSIZE`) threaded as explicit state. -/
structure SemaSt where
  strlabel : Nat
  globals : List VarS
  stacksize : Nat

/-- `maybe_decay`: in a value context an array-typed node is rewritten
to an address-of node of pointer-to-element type. -/
def maybeDecay (base : NodeS) (decay : Bool) : NodeS :=
  if !decay then base
  else
    match base.ty.ty with
    | .ary aryOf _ => NodeS.mk (.addr base) (ptrTo aryOf)
    | _ => base

/-- `check_lval`: only variables, dereferences and member accesses are
lvalues. -/
def checkLval (node : NodeS) : Except String Unit :=
  match node.op with
  | .lvar _ => .ok ()
  | .gvar _ _ _ => .ok ()
  | .deref _ => .ok ()
  | .dot _ _ _ => .ok ()
  | _ => .error "not an lvalue"

/-- Member search of the `Dot` case of `walk`: find the member `Vardef`
with the given name. -/
def findMember (name : String) : List NodeS → Option NodeS
  | [] => none
  | m :: rest =>
      match m.op with
      | .vardef mName _ _ => if mName = name then some m else findMember name rest
      | _ => findMember name rest

mutual

/-- `walk` from `sema.rs`: resolve names, attach types, allocate stack
offsets, validate lvalues.  The `&mut Env` and the mutable singletons
are threaded explicitly; fatal `panic!` calls become `Except.error`. -/
def walk (node : NodeS) (env : EnvS) (decay : Bool) (st : SemaSt) :
    Except String (NodeS × EnvS × SemaSt) :=
  match node with
  | .mk nodeOp _ =>
  match nodeOp with
  | .num _ => .ok (node, env, st)
  | .str data len =>
      let name := ".L.str" ++ toString st.strlabel
      let st := { st with strlabel := st.strlabel + 1 }
      let var : VarS := ⟨node.ty, name, .globalS data len false⟩
      let st := { st with globals := st.globals ++ [var] }
      let ret := NodeS.mk (.gvar var.name "" len) node.ty
      .ok (maybeDecay ret decay, env, st)
  | .ident name =>
      match env.find name with
      | some var =>
          match var.scope with
          | .localS offset =>
              let ret := NodeS.mk (.lvar (.localS offset)) var.ty
              .ok (maybeDecay ret decay, env, st)
          | .globalS data len _ =>
              let ret := NodeS.mk (.gvar var.name data len) var.ty
              .ok (maybeDecay ret decay, env, st)
      | none => .error ("undefined variable: " ++ name)
  | .vardef name initMay _ =>
      let ss := roundup st.stacksize node.ty.align + node.ty.size
      let offset := ss
      let st := { st with stacksize := ss }
      let env := EnvS.mk (varsInsert name ⟨node.ty, name, .localS offset⟩ env.vars) env.next
      match initMay with
      | some init2 =>
          match walk init2 env true st with
          | .error e => .error e
          | .ok (init', env, st) =>
              .ok (node.withOp (.vardef name (some init') (.localS offset)), env, st)
      | none =>
          .ok (node.withOp (.vardef name none (.localS offset)), env, st)
  | .ifN cond then_ elsMay =>
      -- the optional else-branch is matched first so that each shape
      -- yields one equation; the walk order (cond, then, else) is the
      -- source's
      match elsMay with
      | some els =>
          match walk cond env true st with
          | .error e => .error e
          | .ok (cond, env, st) =>
              match walk then_ env true st with
              | .error e => .error e
              | .ok (then_, env, st) =>
                  match walk els env true st with
                  | .error e => .error e
                  | .ok (els, env, st) =>
                      .ok (node.withOp (.ifN cond then_ (some els)), env, st)
      | none =>
          match walk cond env true st with
          | .error e => .error e
          | .ok (cond, env, st) =>
              match walk then_ env true st with
              | .error e => .error e
              | .ok (then_, env, st) =>
                  .ok (node.withOp (.ifN cond then_ none), env, st)
  | .ternary cond then_ els =>
      match walk cond env true st with
      | .error e => .error e
      | .ok (cond, env, st) =>
          match walk then_ env true st with
          | .error e => .error e
          | .ok (then_, env, st) =>
              match walk els env true st with
              | .error e => .error e
              | .ok (els, env, st) =>
                  .ok ((node.withOp (.ternary cond then_ els)).withTy then_.ty, env, st)
  | .forN init cond inc body =>
      match walk init env true st with
      | .error e => .error e
      | .ok (init, env, st) =>
          match walk cond env true st with
          | .error e => .error e
          | .ok (cond, env, st) =>
              match walk inc env true st with
              | .error e => .error e
              | .ok (inc, env, st) =>
                  match walk body env true st with
                  | .error e => .error e
                  | .ok (body, env, st) =>
                      .ok (node.withOp (.forN init cond inc body), env, st)
  | .doWhile body cond =>
      match walk body env true st with
      | .error e => .error e
      | .ok (body, env, st) =>
          match walk cond env true st with
          | .error e => .error e
          | .ok (cond, env, st) =>
              .ok (node.withOp (.doWhile body cond), env, st)
  | .dot expr name _ =>
      match walk expr env true st with
      | .error e => .error e
      | .ok (expr, env, st) =>
          match expr.ty.ty with
          | .struc members =>
              match findMember name members with
              | some m =>
                  match m.op with
                  | .vardef _ _ (.localS offset2) =>
                      .ok (maybeDecay
                            ((node.withTy m.ty).withOp (.dot expr name offset2))
                            decay, env, st)
                  | _ => .error "unreachable"
              | none => .error ("member missing: " ++ name)
          | _ => .error "struct expected before '.'"
  | .binOp tokenType lhs rhs =>
      match tokenType with
      | .plus | .minus =>
          match walk lhs env true st with
          | .error e => .error e
          | .ok (lhs, env, st) =>
              match walk rhs env true st with
              | .error e => .error e
              | .ok (rhs, env, st) =>
                  let (lhs, rhs) :=
                    match rhs.ty.ty with
                    | .ptr _ => (rhs, lhs)
                    | _ => (lhs, rhs)
                  match rhs.ty.ty with
                  | .ptr _ => .error "'pointer +/- pointer' is not defined"
                  | _ =>
                      .ok ((node.withOp (.binOp tokenType lhs rhs)).withTy lhs.ty,
                           env, st)
      | .equal =>
          match walk lhs env false st with
          | .error e => .error e
          | .ok (lhs, env, st) =>
              match checkLval lhs with
              | .error e => .error e
              | .ok _ =>
                  match walk rhs env true st with
                  | .error e => .error e
                  | .ok (rhs, env, st) =>
                      .ok ((node.withOp (.binOp tokenType lhs rhs)).withTy lhs.ty,
                           env, st)
      | _ =>
          match walk lhs env true st with
          | .error e => .error e
          | .ok (lhs, env, st) =>
              match walk rhs env true st with
              | .error e => .error e
              | .ok (rhs, env, st) =>
                  .ok ((node.withOp (.binOp tokenType lhs rhs)).withTy lhs.ty,
                       env, st)
  | .preInc expr =>
      match walk expr env true st with
      | .error e => .error e
      | .ok (expr, env, st) => .ok (node.withOp (.preInc expr), env, st)
  | .preDec expr =>
      match walk expr env true st with
      | .error e => .error e
      | .ok (expr, env, st) => .ok (node.withOp (.preDec expr), env, st)
  | .postInc expr =>
      match walk expr env true st with
      | .error e => .error e
      | .ok (expr, env, st) => .ok (node.withOp (.postInc expr), env, st)
  | .postDec expr =>
      match walk expr env true st with
      | .error e => .error e
      | .ok (expr, env, st) => .ok (node.withOp (.postDec expr), env, st)
  | .neg expr =>
      match walk expr env true st with
      | .error e => .error e
      | .ok (expr, env, st) => .ok (node.withOp (.neg expr), env, st)
  | .exclamation expr =>
      match walk expr env true st with
      | .error e => .error e
      | .ok (expr, env, st) => .ok (node.withOp (.exclamation expr), env, st)
  | .addr expr =>
      match walk expr env true st with
      | .error e => .error e
      | .ok (expr, env, st) =>
          match checkLval expr with
          | .error e => .error e
          | .ok _ =>
              .ok ((node.withTy (ptrTo expr.ty)).withOp (.addr expr), env, st)
  | .deref expr =>
      match walk expr env true st with
      | .error e => .error e
      | .ok (expr, env, st) =>
          match expr.ty.ty with
          | .ptr ptrToTy =>
              .ok ((node.withTy ptrToTy).withOp (.deref expr), env, st)
          | .void => .error "cannot dereference void opinter"
          | _ => .error "operand must be a pointer"
  | .retN expr =>
      match walk expr env true st with
      | .error e => .error e
      | .ok (expr, env, st) => .ok (node.withOp (.retN expr), env, st)
  | .exprStmt expr =>
      match walk expr env true st with
      | .error e => .error e
      | .ok (expr, env, st) => .ok (node.withOp (.exprStmt expr), env, st)
  | .sizeofNode expr =>
      match walk expr env false st with
      | .error e => .error e
      | .ok (expr, env, st) => .ok (NodeS.intNode (expr.ty.size : Int), env, st)
  | .alignofNode expr =>
      match walk expr env false st with
      | .error e => .error e
      | .ok (expr, env, st) => .ok (NodeS.intNode (expr.ty.align : Int), env, st)
  | .call name args =>
      match walkList args env st with
      | .error e => .error e
      | .ok (args, env, st) => .ok (node.withOp (.call name args), env, st)
  | .func name args body stacksize =>
      match walkList args env st with
      | .error e => .error e
      | .ok (args, env, st) =>
          match walk body env true st with
          | .error e => .error e
          | .ok (body, env, st) =>
              .ok (node.withOp (.func name args body stacksize), env, st)
  | .compStmt stmts =>
      let newEnv := EnvS.mk [] (some env)
      match walkList stmts newEnv st with
      | .error e => .error e
      | .ok (stmts, _, st) => .ok (node.withOp (.compStmt stmts), env, st)
  | .vecStmt stmts =>
      match walkList stmts env st with
      | .error e => .error e
      | .ok (stmts, env, st) => .ok (node.withOp (.vecStmt stmts), env, st)
  | .stmtExpr body =>
      match walk body env true st with
      | .error e => .error e
      | .ok (body, env, st) =>
          .ok ((node.withOp (.stmtExpr body)).withTy intTy, env, st)
  | .null => .ok (node, env, st)
  | .logand _ _ => .error "unknown node type"
  | .logor _ _ => .error "unknown node type"
  | .lvar _ => .error "unknown node type"
  | .gvar _ _ _ => .error "unknown node type"
termination_by sizeOf node

/-- Sequential walk of a node list against one threaded environment
(the `map` closures over `&mut env` in `sema.rs`). -/
def walkList (nodes : List NodeS) (env : EnvS) (st : SemaSt) :
    Except String (List NodeS × EnvS × SemaSt) :=
  match nodes with
  | [] => .ok ([], env, st)
  | n :: rest =>
      match walk n env true st with
      | .error e => .error e
      | .ok (n', env, st) =>
          match walkList rest env st with
          | .error e => .error e
          | .ok (rest', env, st) => .ok (n' :: rest', env, st)
termination_by sizeOf nodes

end

end Sema

namespace GenIr

/-- Modelled from the spec: token kinds convertible to IR opcodes in
`gen_ir.rs` (`token.rs` is not part of the supplied sources); one extra
kind stands for the token types `From<TokenType> for IROp` panics on. -/
inductive TokenTypeG where
  | plus
  | minus
  | mul
  | div
  | leftAngleBracket
  | rightAngleBracket
  | equal
  | exclamation
  deriving DecidableEq

/-- `Ctype` as used by `gen_ir.rs` (`parse.rs` is not part of the
supplied sources): `Ptr` holds its pointee `Ctype` directly. -/
inductive CtypeG where
  | int
  | ptr (t : CtypeG)
  | ary (t : CtypeG) (len : Nat)
  deriving DecidableEq

/-- `size_of` from `sema` as used by `gen_ir.rs` (not among the
supplied sources).  Modelled from the spec: `int` is 4 bytes, pointers
are 8 bytes, an array is `len` elements of its base size. -/
def size_of : CtypeG → Nat
  | .int => 4
  | .ptr _ => 8
  | .ary t len => size_of t * len

/-- The `Type` wrapper accessed as `node.ty.ty`. -/
structure TyG where
  ty : CtypeG
  deriving DecidableEq

mutual

/-- `NodeType` (from `parse.rs`, modelled from its usage in
`gen_ir.rs`). -/
inductive NodeTypeG where
  | num : Int → NodeTypeG
  | logand : NodeG → NodeG → NodeTypeG
  | logor : NodeG → NodeG → NodeTypeG
  | lvar : NodeTypeG
  | call : String → List NodeG → NodeTypeG
  | addr : NodeG → NodeTypeG
  | deref : NodeG → NodeTypeG
  | binOp : TokenTypeG → NodeG → NodeG → NodeTypeG
  | vardef : String → Option NodeG → NodeTypeG
  | ifN : NodeG → NodeG → Option NodeG → NodeTypeG
  | forN : NodeG → NodeG → NodeG → NodeG → NodeTypeG
  | retN : NodeG → NodeTypeG
  | exprStmt : NodeG → NodeTypeG
  | compStmt : List NodeG → NodeTypeG
  | func : String → List NodeG → NodeG → NodeTypeG

/-- `Node` (from `parse.rs`, modelled from its usage in `gen_ir.rs`):
operation, attached type, stack offset, and (for functions) the frame
size. -/
inductive NodeG where
  | mk : NodeTypeG → TyG → Nat → Nat → NodeG

end

def NodeG.op : NodeG → NodeTypeG
  | .mk o _ _ _ => o

def NodeG.ty : NodeG → TyG
  | .mk _ t _ _ => t

def NodeG.offset : NodeG → Nat
  | .mk _ _ o _ => o

def NodeG.stacksize : NodeG → Nat
  | .mk _ _ _ s => s

/-- `IROp` from `gen_ir.rs`.  The call payload's fixed `[usize; 6]`
argument array is a six-element list. -/
inductive IROp where
  | add
  | sub
  | mul
  | div
  | imm
  | subImm
  | mov
  | ret
  | call (name : String) (nargs : Nat) (args : List Nat)
  | label
  | lt
  | jmp
  | unless
  | load32
  | load64
  | store32
  | store64
  | store32Arg
  | store64Arg
  | kill
  | nop
  deriving DecidableEq

/-- `IR` from `gen_ir.rs`: opcode and two optional operand slots. -/
structure IR where
  op : IROp
  lhs : Option Nat
  rhs : Option Nat
  deriving DecidableEq

/-- `From<TokenType> for IROp` (panics on inconvertible tokens). -/
def IROp.fromToken : TokenTypeG → Except String IROp
  | .plus => .ok .add
  | .minus => .ok .sub
  | .mul => .ok .mul
  | .div => .ok .div
  | .leftAngleBracket => .ok .lt
  | .rightAngleBracket => .ok .lt
  | _ => .error "cannot convert"

/-- `Function` from `gen_ir.rs`. -/
structure FunctionG where
  name : String
  ir : List IR
  stacksize : Nat
  deriving DecidableEq

/-- The mutable singletons of `gen_ir.rs` (`NREG`, `NLABEL`, `CODE`)
threaded as explicit state.  `allocs` is a ghost field recording, in
order, every virtual-register id handed out by the `*NREG += 1`
allocation sites; it has no influence on any generated output. -/
structure GenState where
  nreg : Nat
  nlabel : Nat
  code : List IR
  allocs : List Nat
  deriving DecidableEq

/-- `add`: append one instruction to the code buffer. -/
def emit (op : IROp) (lhs rhs : Option Nat) (s : GenState) : GenState :=
  { s with code := s.code ++ [⟨op, lhs, rhs⟩] }

/-- A fresh virtual register (`let r = *NREG; *NREG += 1`). -/
def newReg (s : GenState) : Nat × GenState :=
  (s.nreg, { s with nreg := s.nreg + 1, allocs := s.allocs ++ [s.nreg] })

/-- A fresh label (`let x = *NLABEL; *NLABEL += 1`). -/
def newLabel (s : GenState) : Nat × GenState :=
  (s.nlabel, { s with nlabel := s.nlabel + 1 })

/-- `kill`. -/
def killR (r : Option Nat) (s : GenState) : GenState :=
  emit .kill r none s

/-- `label`. -/
def labelI (x : Option Nat) (s : GenState) : GenState :=
  emit .label x none s

/-- `i32 as usize` performed by the `Num` case (`val as usize`). -/
def intToUsize (v : Int) : Nat := (v % (2 ^ 64)).toNat

mutual

/-- `gen_lval` from `gen_ir.rs`: the address of a dereference is the
lowered pointer expression; the address of a local is base pointer
(register 0) minus the stack offset. -/
def genLval (node : NodeG) (s : GenState) :
    Except String (Option Nat × GenState) :=
  match node with
  | .mk nodeOp _ _ _ =>
  match nodeOp with
  | .deref expr => genExpr expr s
  | .lvar =>
      let (r, s) := newReg s
      let s := emit .mov (some r) (some 0) s
      let s := emit .subImm (some r) (some node.offset) s
      .ok (some r, s)
  | _ => .error "not an lvalue"
termination_by sizeOf node

/-- `gen_binop` from `gen_ir.rs`. -/
def genBinop (ty : IROp) (lhs rhs : NodeG) (s : GenState) :
    Except String (Option Nat × GenState) :=
  match genExpr lhs s with
  | .error e => .error e
  | .ok (r1, s) =>
      match genExpr rhs s with
      | .error e => .error e
      | .ok (r2, s) =>
          let s := emit ty r1 r2 s
          let s := killR r2 s
          .ok (r1, s)
termination_by sizeOf lhs + sizeOf rhs
decreasing_by
all_goals first
  | decreasing_tactic
  | (cases lhs; cases rhs; simp)

/-- The argument loop of the `Call` case: `args_ir[i] =
gen_expr(args[i]).unwrap()`.  The array write is bounds-checked here
because the source's fixed `[usize; 6]` array panics for `i >= 6`
(after the argument itself has been lowered). -/
def genCallArgs (args : List NodeG) (i : Nat) (arr : List Nat)
    (s : GenState) : Except String (List Nat × GenState) :=
  match args with
  | [] => .ok (arr, s)
  | a :: rest =>
      match genExpr a s with
      | .error e => .error e
      | .ok (ro, s) =>
          match ro with
          | none => .error "unwrap on None"
          | some r =>
              if i < 6 then genCallArgs rest (i + 1) (arr.set i r) s
              else .error "index out of bounds"
termination_by sizeOf args

/-- `gen_expr` from `gen_ir.rs`. -/
def genExpr (node : NodeG) (s : GenState) :
    Except String (Option Nat × GenState) :=
  match node with
  | .mk nodeOp _ _ _ =>
  match nodeOp with
  | .num val =>
      let (r, s) := newReg s
      let s := emit .imm (some r) (some (intToUsize val)) s
      .ok (some r, s)
  | .logand lhs rhs =>
      let (x, s) := newLabel s
      match genExpr lhs s with
      | .error e => .error e
      | .ok (r1, s) =>
          let s := emit .unless r1 (some x) s
          match genExpr rhs s with
          | .error e => .error e
          | .ok (r2, s) =>
              let s := emit .mov r1 r2 s
              let s := killR r2 s
              let s := emit .unless r1 (some x) s
              let s := emit .imm r1 (some 1) s
              let s := labelI (some x) s
              .ok (r1, s)
  | .logor lhs rhs =>
      let (x, s) := newLabel s
      let (y, s) := newLabel s
      match genExpr lhs s with
      | .error e => .error e
      | .ok (r1, s) =>
          let s := emit .unless r1 (some x) s
          let s := emit .imm r1 (some 1) s
          let s := emit .jmp (some y) none s
          let s := labelI (some x) s
          match genExpr rhs s with
          | .error e => .error e
          | .ok (r2, s) =>
              let s := emit .mov r1 r2 s
              let s := killR r2 s
              let s := emit .unless r1 (some y) s
              let s := emit .imm r1 (some 1) s
              let s := labelI (some y) s
              .ok (r1, s)
  | .lvar =>
      -- `gen_lval(node)` on this same node: since `node.op` is `Lvar`,
      -- the `Lvar` branch of `gen_lval` is inlined here verbatim.
      let ty := node.ty.ty
      let (r0, s) := newReg s
      let s := emit .mov (some r0) (some 0) s
      let s := emit .subImm (some r0) (some node.offset) s
      let r := some r0
      let s :=
        match ty with
        | .ptr _ => emit .load64 r r s
        | _ => emit .load32 r r s
      .ok (r, s)
  | .call name args =>
      match genCallArgs args 0 (List.replicate 6 0) s with
      | .error e => .error e
      | .ok (argsIr, s) =>
          let (r, s) := newReg s
          let s := emit (.call name args.length argsIr) (some r) none s
          let s :=
            (List.range args.length).foldl
              (fun s i => killR (some (argsIr.getD i 0)) s) s
          .ok (some r, s)
  | .addr expr => genLval expr s
  | .deref expr =>
      match genExpr expr s with
      | .error e => .error e
      | .ok (r, s) =>
          let s := emit .load64 r r s
          .ok (r, s)
  | .binOp op lhs rhs =>
      match op with
      | .equal =>
          match genExpr rhs s with
          | .error e => .error e
          | .ok (rhsR, s) =>
              match genLval lhs s with
              | .error e => .error e
              | .ok (lhsR, s) =>
                  let s :=
                    match node.ty.ty with
                    | .ptr _ => emit .store64 lhsR rhsR s
                    | _ => emit .store32 lhsR rhsR s
                  let s := killR rhsR s
                  .ok (lhsR, s)
      | .plus | .minus =>
          match IROp.fromToken op with
          | .error e => .error e
          | .ok insn =>
              match lhs.ty.ty with
              | .ptr ptrOf =>
                  match genExpr rhs s with
                  | .error e => .error e
                  | .ok (rhsR, s) =>
                      let (r, s) := newReg s
                      let s := emit .imm (some r) (some (size_of ptrOf)) s
                      let s := emit .mul rhsR (some r) s
                      let s := killR (some r) s
                      match genExpr lhs s with
                      | .error e => .error e
                      | .ok (lhsR, s) =>
                          let s := emit insn lhsR rhsR s
                          let s := killR rhsR s
                          .ok (lhsR, s)
              | _ => genBinop insn lhs rhs s
      | _ =>
          match IROp.fromToken op with
          | .error e => .error e
          | .ok insn => genBinop insn lhs rhs s
  | _ => .error "unreachable"
termination_by sizeOf node

end

mutual

/-- `gen_stmt` from `gen_ir.rs`.  Note that the `If`-with-else arm
falls through into the no-else lowering, exactly as the source does. -/
def genStmt (node : NodeG) (s : GenState) : Except String GenState :=
  match node with
  | .mk nodeOp _ _ _ =>
  match nodeOp with
  | .vardef _ initMay =>
      match initMay with
      | some init =>
          match genExpr init s with
          | .error e => .error e
          | .ok (rhs, s) =>
              let (lhs, s) := newReg s
              let s := emit .mov (some lhs) (some 0) s
              let s := emit .subImm (some lhs) (some node.offset) s
              let s :=
                match node.ty.ty with
                | .ptr _ => emit .store64 (some lhs) rhs s
                | _ => emit .store32 (some lhs) rhs s
              let s := killR (some lhs) s
              let s := killR rhs s
              .ok s
      | none => .ok s
  | .ifN cond then_ elsMay =>
      let step1 : Except String GenState :=
        match elsMay with
        | some els =>
            let (x, s) := newLabel s
            let (y, s) := newLabel s
            match genExpr cond s with
            | .error e => .error e
            | .ok (r, s) =>
                let s := emit .unless r (some x) s
                let s := killR r s
                match genStmt then_ s with
                | .error e => .error e
                | .ok s =>
                    let s := emit .jmp (some y) none s
                    let s := labelI (some x) s
                    match genStmt els s with
                    | .error e => .error e
                    | .ok s => .ok (labelI (some y) s)
        | none => .ok s
      match step1 with
      | .error e => .error e
      | .ok s =>
          let (x, s) := newLabel s
          match genExpr cond s with
          | .error e => .error e
          | .ok (r, s) =>
              let s := emit .unless r (some x) s
              let s := killR r s
              match genStmt then_ s with
              | .error e => .error e
              | .ok s => .ok (labelI (some x) s)
  | .forN init cond inc body =>
      let (x, s) := newLabel s
      let (y, s) := newLabel s
      match genStmt init s with
      | .error e => .error e
      | .ok s =>
          let s := labelI (some x) s
          match genExpr cond s with
          | .error e => .error e
          | .ok (r2, s) =>
              let s := emit .unless r2 (some y) s
              let s := killR r2 s
              match genStmt body s with
              | .error e => .error e
              | .ok s =>
                  match genExpr inc s with
                  | .error e => .error e
                  | .ok (r3, s) =>
                      let s := killR r3 s
                      let s := emit .jmp (some x) none s
                      .ok (labelI (some y) s)
  | .retN expr =>
      match genExpr expr s with
      | .error e => .error e
      | .ok (r, s) =>
          let s := emit .ret r none s
          .ok (killR r s)
  | .exprStmt expr =>
      match genExpr expr s with
      | .error e => .error e
      | .ok (r, s) => .ok (killR r s)
  | .compStmt stmts => genStmtList stmts s
  | _ => .error "unknown node"
termination_by sizeOf node

/-- The statement loop of `CompStmt`. -/
def genStmtList (stmts : List NodeG) (s : GenState) :
    Except String GenState :=
  match stmts with
  | [] => .ok s
  | n :: rest =>
      match genStmt n s with
      | .error e => .error e
      | .ok s => genStmtList rest s
termination_by sizeOf stmts

end

/-- The function prologue of `gen_ir`: store each formal parameter from
its fixed call-argument slot to its stack offset, in declaration
order. -/
def genPrologue (args : List NodeG) (i : Nat) (s : GenState) : GenState :=
  match args with
  | [] => s
  | arg :: rest =>
      let op :=
        match arg.ty.ty with
        | .ptr _ => IROp.store64Arg
        | _ => IROp.store32Arg
      genPrologue rest (i + 1) (emit op (some arg.offset) (some i) s)

/-- One iteration of `gen_ir` on a `Func` node: reset the code buffer
and the register counter (the label counter persists), emit the
prologue, lower the body, and package the `Function`.  The ghost
`allocs` list is reset together with the register counter. -/
def genFunction (name : String) (args : List NodeG) (body : NodeG)
    (stacksize : Nat) (s : GenState) :
    Except String (FunctionG × GenState) :=
  let s := { s with code := [], nreg := 1, allocs := [] }
  let s := genPrologue args 0 s
  match genStmt body s with
  | .error e => .error e
  | .ok s => .ok (⟨name, s.code, stacksize⟩, s)

/-- `gen_ir` from `gen_ir.rs`: lower every top-level `Func` node. -/
def genIr (nodes : List NodeG) (s : GenState) :
    Except String (List FunctionG × GenState) :=
  match nodes with
  | [] => .ok ([], s)
  | node :: rest =>
      match node.op with
      | .func name args body =>
          match genFunction name args body node.stacksize s with
          | .error e => .error e
          | .ok (f, s) =>
              match genIr rest s with
              | .error e => .error e
              | .ok (fs, s) => .ok (f :: fs, s)
      | _ => .error "parse error."

/-! ### An operational semantics for the generated IR

The register allocator / machine-code emitter that consumes the IR is
out of scope (spec section 1), so the meaning of an instruction list is
fixed here by a small-step machine: registers and memory are unbounded
maps, calls draw their results from an oracle stream, and the incoming
function arguments are an oracle map (`STORE*_ARG`).  `UNLESS` branches
to its label when the register holds zero; a branch target is the first
`LABEL` instruction carrying that label id. -/

/-- Machine state: register file, memory, number of calls executed so
far, the call-result oracle, and the incoming-argument map. -/
structure Mach where
  regs : Nat → Int
  mem : Int → Int
  ncall : Nat
  oracle : Nat → Int
  argv : Nat → Int

def Mach.setReg (m : Mach) (a : Nat) (v : Int) : Mach :=
  { m with regs := fun q => if q = a then v else m.regs q }

def Mach.setMem (m : Mach) (a v : Int) : Mach :=
  { m with mem := fun q => if q = a then v else m.mem q }

/-- Index of the first `LABEL x` instruction. -/
def findLabel (code : List IR) (x : Nat) : Option Nat :=
  code.findIdx? (fun i => i.op == IROp.label && i.lhs == some x)

/-- One machine step at `pc`; `none` when halted or stuck. -/
def step (code : List IR) (pc : Nat) (m : Mach) : Option (Nat × Mach) :=
  match code.get? pc with
  | none => none
  | some ins =>
      match ins.op, ins.lhs, ins.rhs with
      | .add, some a, some b => some (pc + 1, m.setReg a (m.regs a + m.regs b))
      | .sub, some a, some b => some (pc + 1, m.setReg a (m.regs a - m.regs b))
      | .mul, some a, some b => some (pc + 1, m.setReg a (m.regs a * m.regs b))
      | .div, some a, some b => some (pc + 1, m.setReg a (m.regs a / m.regs b))
      | .imm, some a, some b => some (pc + 1, m.setReg a (b : Int))
      | .subImm, some a, some b => some (pc + 1, m.setReg a (m.regs a - (b : Int)))
      | .mov, some a, some b => some (pc + 1, m.setReg a (m.regs b))
      | .lt, some a, some b =>
          some (pc + 1, m.setReg a (if m.regs a < m.regs b then 1 else 0))
      | .jmp, some x, _ => (findLabel code x).map (fun i => (i, m))
      | .unless, some r, some x =>
          if m.regs r = 0 then (findLabel code x).map (fun i => (i, m))
          else some (pc + 1, m)
      | .label, some _, _ => some (pc + 1, m)
      | .kill, _, _ => some (pc + 1, m)
      | .nop, _, _ => some (pc + 1, m)
      | .load32, some a, some b => some (pc + 1, m.setReg a (m.mem (m.regs b)))
      | .load64, some a, some b => some (pc + 1, m.setReg a (m.mem (m.regs b)))
      | .store32, some a, some b => some (pc + 1, m.setMem (m.regs a) (m.regs b))
      | .store64, some a, some b => some (pc + 1, m.setMem (m.regs a) (m.regs b))
      | .store32Arg, some off, some i =>
          some (pc + 1, m.setMem (m.regs 0 - (off : Int)) (m.argv i))
      | .store64Arg, some off, some i =>
          some (pc + 1, m.setMem (m.regs 0 - (off : Int)) (m.argv i))
      | .call _ _ _, some a, _ =>
          some (pc + 1, { m.setReg a (m.oracle m.ncall) with ncall := m.ncall + 1 })
      | _, _, _ => none

/-- Run at most `fuel` steps, recording the `pc` of every executed
instruction; a halted/stuck machine keeps its state. -/
def run (code : List IR) (fuel : Nat) (pc : Nat) (m : Mach) :
    Nat × Mach × List Nat :=
  match fuel with
  | 0 => (pc, m, [])
  | fuel + 1 =>
      match step code pc m with
      | none => (pc, m, [])
      | some (pc', m') =>
          let (pcE, mE, tr) := run code fuel pc' m'
          (pcE, mE, pc :: tr)

/-- The label ids defined in an instruction list. -/
def labelsOf (k : List IR) : List Nat :=
  k.filterMap (fun i =>
    match i.op, i.lhs with
    | .label, some x => some x
    | _, _ => none)

/-- A code region is label-fresh for `[lo, hi)` when none of its label
definitions lies in that interval. -/
def labFresh (k : List IR) (lo hi : Nat) : Prop :=
  ∀ x ∈ labelsOf k, x < lo ∨ hi ≤ x

/-- State threaded by the denotational expression semantics. -/
structure EvalSt where
  mem : Int → Int
  ncall : Nat

def EvalSt.setMem (st : EvalSt) (a v : Int) : EvalSt :=
  { st with mem := fun q => if q = a then v else st.mem q }

mutual

/-- Denotational value semantics matching `gen_expr`'s evaluation
order: the value of the expression, threading memory and the call
counter. -/
def evalExpr (orc : Nat → Int) (fp : Int) (node : NodeG) (st : EvalSt) :
    Except String (Int × EvalSt) :=
  match node with
  | .mk nodeOp _ _ _ =>
  match nodeOp with
  | .num val => .ok ((intToUsize val : Int), st)
  | .logand lhs rhs =>
      match evalExpr orc fp lhs st with
      | .error e => .error e
      | .ok (v1, st) =>
          if v1 = 0 then .ok (0, st)
          else
            match evalExpr orc fp rhs st with
            | .error e => .error e
            | .ok (v2, st) => .ok (if v2 = 0 then 0 else 1, st)
  | .logor lhs rhs =>
      match evalExpr orc fp lhs st with
      | .error e => .error e
      | .ok (v1, st) =>
          if v1 = 0 then
            match evalExpr orc fp rhs st with
            | .error e => .error e
            | .ok (v2, st) => .ok (if v2 = 0 then 0 else 1, st)
          else .ok (1, st)
  | .lvar => .ok (st.mem (fp - (node.offset : Int)), st)
  | .call _ args =>
      match evalArgs orc fp args st with
      | .error e => .error e
      | .ok (_, st) => .ok (orc st.ncall, { st with ncall := st.ncall + 1 })
  | .addr expr => evalLval orc fp expr st
  | .deref expr =>
      match evalExpr orc fp expr st with
      | .error e => .error e
      | .ok (v, st) => .ok (st.mem v, st)
  | .binOp op lhs rhs =>
      match op with
      | .equal =>
          match evalExpr orc fp rhs st with
          | .error e => .error e
          | .ok (vr, st) =>
              match evalLval orc fp lhs st with
              | .error e => .error e
              | .ok (a, st) => .ok (a, st.setMem a vr)
      | .plus | .minus =>
          match lhs.ty.ty with
          | .ptr ptrOf =>
              match evalExpr orc fp rhs st with
              | .error e => .error e
              | .ok (v2, st) =>
                  match evalExpr orc fp lhs st with
                  | .error e => .error e
                  | .ok (v1, st) =>
                      let v2s := v2 * (size_of ptrOf : Int)
                      .ok (if op = .plus then v1 + v2s else v1 - v2s, st)
          | _ =>
              match evalExpr orc fp lhs st with
              | .error e => .error e
              | .ok (v1, st) =>
                  match evalExpr orc fp rhs st with
                  | .error e => .error e
                  | .ok (v2, st) =>
                      .ok (if op = .plus then v1 + v2 else v1 - v2, st)
      | .mul | .div | .leftAngleBracket | .rightAngleBracket =>
          match evalExpr orc fp lhs st with
          | .error e => .error e
          | .ok (v1, st) =>
              match evalExpr orc fp rhs st with
              | .error e => .error e
              | .ok (v2, st) =>
                  match op with
                  | .mul => .ok (v1 * v2, st)
                  | .div => .ok (v1 / v2, st)
                  | _ => .ok (if v1 < v2 then 1 else 0, st)
      | _ => .error "cannot convert"
  | _ => .error "unreachable"
termination_by sizeOf node

/-- Denotational lvalue (address) semantics matching `gen_lval`. -/
def evalLval (orc : Nat → Int) (fp : Int) (node : NodeG) (st : EvalSt) :
    Except String (Int × EvalSt) :=
  match node with
  | .mk nodeOp _ _ _ =>
  match nodeOp with
  | .deref expr => evalExpr orc fp expr st
  | .lvar => .ok (fp - (node.offset : Int), st)
  | _ => .error "not an lvalue"
termination_by sizeOf node

/-- Left-to-right evaluation of call arguments. -/
def evalArgs (orc : Nat → Int) (fp : Int) (args : List NodeG) (st : EvalSt) :
    Except String (List Int × EvalSt) :=
  match args with
  | [] => .ok ([], st)
  | a :: rest =>
      match evalExpr orc fp a st with
      | .error e => .error e
      | .ok (v, st) =>
          match evalArgs orc fp rest st with
          | .error e => .error e
          | .ok (vs, st) => .ok (v :: vs, st)
termination_by sizeOf args

end

end GenIr

/-! ## Concrete inputs used by counterexamples and witnesses -/

namespace Pre

/-- A plain source token on a given line. -/
def tk (ty : TokenType) (l : Nat) : Token := ⟨ty, l, false⟩

/-- A context with no macros, an exhausted frame and an empty lexer
oracle. -/
def emptyCtx : Ctx := ⟨[], .mk [] [] 0 none, fun _ => []⟩

/-- Token stream of a file whose line 1 is `#define F __LINE__` and
whose line 3 uses `F`. -/
def lineMacroInput : List Token :=
  [tk .hashMark 1, tk (.ident "define") 1, tk (.ident "F") 1,
   tk (.ident "__LINE__") 1, tk .newLine 1, tk (.ident "F") 3]

/-- The cursor state just after the invocation `F(` of a function-like
macro, with remaining input `(1,2),3)`. -/
def nestedArgsCtx : Ctx :=
  ⟨[], .mk
    [tk .leftParen 1, tk (.num 1) 1, tk .comma 1, tk (.num 2) 1,
     tk .rightParen 1, tk .comma 1, tk (.num 3) 1, tk .rightParen 1]
    [] 0 none, fun _ => []⟩

/-- The cursor state at the invocation `F(1)` (about to read `(`), used
against a two-parameter macro. -/
def mismatchCtx : Ctx :=
  ⟨[], .mk [tk .leftParen 1, tk (.num 1) 1, tk .rightParen 1] [] 0 none,
   fun _ => []⟩

/-- The cursor state just after `#define F(` where the next token is
already `)`. -/
def emptyParamsCtx : Ctx :=
  ⟨[], .mk [tk .rightParen 1, tk .newLine 1] [] 0 none, fun _ => []⟩

end Pre

namespace Sema

/-- An environment binding `p` to a local `int *` at offset 8. -/
def ptrEnv : EnvS := .mk [("p", ⟨ptrTo intTy, "p", .localS 8⟩)] none

def st0 : SemaSt := ⟨0, [], 0⟩

/-- Does `matches!(_, Ctype::Ptr(_))` hold? -/
def isPtrTy : CtypeS → Bool
  | .ptr _ => true
  | _ => false

/-- The unresolved identifier expression `p`. -/
def lhsW : NodeS := NodeS.mk (.ident "p") intTy

/-- The literal expression `1`. -/
def rhsW : NodeS := NodeS.mk (.num 1) intTy

end Sema

namespace GenIr

def intTyG : TyG := ⟨.int⟩

/-- An integer literal node. -/
def numN (v : Int) : NodeG := .mk (.num v) intTyG 0 0

/-- The generator state at the start of a function. -/
def s0 : GenState := ⟨1, 0, [], []⟩

/-- `if (1) { return 2; } else { return 3; }`. -/
def ifElseNode : NodeG :=
  .mk (.ifN (numN 1)
    (.mk (.retN (numN 2)) intTyG 0 0)
    (some (.mk (.retN (numN 3)) intTyG 0 0))) intTyG 0 0

/-- `main() { return 42; }`'s body. -/
def retBody : NodeG := .mk (.retN (numN 42)) intTyG 0 0

/-- An arbitrary generator state left over from earlier lowering, used
to exercise the per-function reset. -/
def staleState : GenState := ⟨5, 7, [⟨.nop, none, none⟩], [3]⟩

/-- The instruction list `gen_stmt` actually emits for `ifElseNode`:
the condition (`MOV rN, 1`) and the then-branch (`MOV 2` / `RET`)
both appear twice, once from the if-else lowering and once more from
the fall-through into the no-else lowering. -/

def ifElseCode : List IR :=
  [⟨.imm, some 1, some 1⟩, ⟨.unless, some 1, some 0⟩, ⟨.kill, some 1, none⟩,
   ⟨.imm, some 2, some 2⟩, ⟨.ret, some 2, none⟩, ⟨.kill, some 2, none⟩,
   ⟨.jmp, some 1, none⟩, ⟨.label, some 0, none⟩,
   ⟨.imm, some 3, some 3⟩, ⟨.ret, some 3, none⟩, ⟨.kill, some 3, none⟩,
   ⟨.label, some 1, none⟩,
   ⟨.imm, some 4, some 1⟩, ⟨.unless, some 4, some 2⟩, ⟨.kill, some 4, none⟩,
   ⟨.imm, some 5, some 2⟩, ⟨.ret, some 5, none⟩, ⟨.kill, some 5, none⟩,
   ⟨.label, some 2, none⟩]

/-- Generator-state extension below a label watermark `lo`: the
register counter grows, the ghost allocation list grows by exactly the
consecutive register ids handed out, the label counter grows, and the
emitted instructions define only labels in `[lo, nlabel')`. -/
def ExtL (lo : Nat) (g g' : GenState) : Prop :=
  g.nreg ≤ g'.nreg ∧ g.nlabel ≤ g'.nlabel ∧
  g'.allocs = g.allocs ++ List.range' g.nreg (g'.nreg - g.nreg) ∧
  ∃ K, g'.code = g.code ++ K ∧ ∀ x ∈ labelsOf K, lo ≤ x ∧ x < g'.nlabel

/-- `run` reaches `b` from `a` in some number of steps with trace `tr`. -/
def RunsTo (C : List IR) (a b : Nat) (m m' : Mach) (tr : List Nat) : Prop :=
  ∃ fuel, run C fuel a m = (b, m', tr)

/-- Every traced program counter lies in `[lo, hi)`. -/
def Confined (tr : List Nat) (lo hi : Nat) : Prop :=
  ∀ p ∈ tr, lo ≤ p ∧ p < hi

def m0 : Mach := ⟨fun _ => 0, fun _ => 0, 0, fun _ => 0, fun _ => 0⟩

def andSF : GenState :=
  ⟨3, 1, [⟨.imm, some 1, some 0⟩, ⟨.unless, some 1, some 0⟩,
    ⟨.imm, some 2, some 5⟩, ⟨.mov, some 1, some 2⟩, ⟨.kill, some 2, none⟩,
    ⟨.unless, some 1, some 0⟩, ⟨.imm, some 1, some 1⟩,
    ⟨.label, some 0, none⟩], [1, 2]⟩

def orSF : GenState :=
  ⟨3, 2, [⟨.imm, some 1, some 3⟩, ⟨.unless, some 1, some 0⟩,
    ⟨.imm, some 1, some 1⟩, ⟨.jmp, some 1, none⟩, ⟨.label, some 0, none⟩,
    ⟨.imm, some 2, some 5⟩, ⟨.mov, some 1, some 2⟩, ⟨.kill, some 2, none⟩,
    ⟨.unless, some 1, some 1⟩, ⟨.imm, some 1, some 1⟩,
    ⟨.label, some 1, none⟩], [1, 2]⟩

end GenIr

/-! ## Theorems -/

namespace GenIr

theorem labelsOf_append (a b : List IR) :
    labelsOf (a ++ b) = labelsOf a ++ labelsOf b :=
  List.filterMap_append a b _

@[simp] theorem emit_nreg (op l r s) : (emit op l r s).nreg = s.nreg := rfl
@[simp] theorem emit_nlabel (op l r s) : (emit op l r s).nlabel = s.nlabel := rfl
@[simp] theorem emit_allocs (op l r s) : (emit op l r s).allocs = s.allocs := rfl
@[simp] theorem emit_code (op l r s) : (emit op l r s).code = s.code ++ [⟨op, l, r⟩] := rfl

theorem ExtL.refl (lo : Nat) (g : GenState) : ExtL lo g g :=
  ⟨le_refl _, le_refl _, by simp, [], by simp, by simp [labelsOf]⟩

theorem ExtL.trans {lo : Nat} {g1 g2 g3 : GenState}
    (h1 : ExtL lo g1 g2) (h2 : ExtL lo g2 g3) : ExtL lo g1 g3 := by
  obtain ⟨hr1, hl1, ha1, K1, hc1, hk1⟩ := h1
  obtain ⟨hr2, hl2, ha2, K2, hc2, hk2⟩ := h2
  refine ⟨le_trans hr1 hr2, le_trans hl1 hl2, ?_, K1 ++ K2, ?_, ?_⟩
  · obtain ⟨k1, hk1e⟩ : ∃ k1, g2.nreg = g1.nreg + k1 :=
      ⟨g2.nreg - g1.nreg, by omega⟩
    obtain ⟨k2, hk2e⟩ : ∃ k2, g3.nreg = g2.nreg + k2 :=
      ⟨g3.nreg - g2.nreg, by omega⟩
    have d1 : g2.nreg - g1.nreg = k1 := by omega
    have d2 : g3.nreg - g2.nreg = k2 := by omega
    have d3 : g3.nreg - g1.nreg = k1 + k2 := by omega
    rw [ha2, ha1, List.append_assoc, d1, d2, d3, hk1e]
    congr 1
    simp
    try omega
  · rw [hc2, hc1, List.append_assoc]
  · intro x hx
    rw [labelsOf_append, List.mem_append] at hx
    rcases hx with hx | hx
    · exact ⟨(hk1 x hx).1, lt_of_lt_of_le (hk1 x hx).2 hl2⟩
    · exact hk2 x hx

theorem ExtL.mono {lo lo' : Nat} {g g' : GenState} (hlo : lo ≤ lo')
    (h : ExtL lo' g g') : ExtL lo g g' := by
  obtain ⟨hr, hl, ha, K, hc, hk⟩ := h
  exact ⟨hr, hl, ha, K, hc, fun x hx => ⟨le_trans hlo (hk x hx).1, (hk x hx).2⟩⟩

theorem ExtL.emit_plain {lo : Nat} (op l r) (g : GenState)
    (hop : op ≠ IROp.label) : ExtL lo g (emit op l r g) := by
  refine ⟨le_refl _, le_refl _, by simp, [⟨op, l, r⟩], by simp, ?_⟩
  intro x hx
  cases op <;> simp [labelsOf] at hx <;> try exact absurd rfl hop

theorem ExtL.kill {lo : Nat} (r) (g : GenState) : ExtL lo g (killR r g) :=
  ExtL.emit_plain .kill r none g (by simp)

theorem ExtL.label {lo : Nat} (x) (g : GenState) (hlo : lo ≤ x)
    (hx : x < g.nlabel) : ExtL lo g (labelI (some x) g) := by
  refine ⟨le_refl _, le_refl _, by simp [labelI], [⟨.label, some x, none⟩],
    by simp [labelI], ?_⟩
  intro y hy
  simp [labelsOf] at hy
  subst hy
  exact ⟨hlo, hx⟩

theorem ExtL.newRegStep {lo : Nat} (g : GenState) : ExtL lo g (newReg g).2 := by
  refine ⟨by simp [newReg], by simp [newReg], ?_, [], by simp [newReg], by simp [labelsOf]⟩
  simp only [newReg]
  rw [show g.nreg + 1 - g.nreg = 1 by omega, List.range'_one]

theorem ExtL.newLabelStep {lo : Nat} (g : GenState) : ExtL lo g (newLabel g).2 := by
  refine ⟨by simp [newLabel], by simp [newLabel], by simp [newLabel], [], by simp [newLabel], by simp [labelsOf]⟩

end GenIr

namespace GenIr

theorem extKillFold {lo : Nat} (l : List Nat) (f : Nat → Option Nat) :
    ∀ s : GenState, ExtL lo s (l.foldl (fun s i => killR (f i) s) s) := by
  induction l with
  | nil => intro s; exact ExtL.refl lo s
  | cons a l ih =>
      intro s
      exact ExtL.trans (ExtL.kill (f a) s) (ih (killR (f a) s))

theorem killFold_nreg (l : List Nat) (f : Nat → Option Nat) :
    ∀ s : GenState, (l.foldl (fun s i => killR (f i) s) s).nreg = s.nreg := by
  induction l with
  | nil => intro s; rfl
  | cons a l ih => intro s; exact ih (killR (f a) s)

theorem sizeOfNodeG_pos (node : NodeG) : 0 < sizeOf node := by
  cases node
  simp only [NodeG.mk.sizeOf_spec]
  omega

theorem sizeOfListNodeG_pos (l : List NodeG) : 0 < sizeOf l := by
  cases l <;> simp

/-- The combined state-extension property of the expression-level
generators (`gen_lval`, `gen_binop`, the call-argument loop and
`gen_expr`), proved by strong induction on node size. -/
theorem extAll : ∀ n : Nat,
    (∀ (node : NodeG) (g : GenState) (ro : Option Nat) (g' : GenState),
      sizeOf node ≤ n → genLval node g = Except.ok (ro, g') →
      ExtL g.nlabel g g' ∧ ∀ r, ro = some r → g.nreg ≤ r ∧ r < g'.nreg) ∧
    (∀ (ty : IROp) (bl br : NodeG) (g : GenState) (ro : Option Nat)
      (g' : GenState), ty ≠ IROp.label → sizeOf bl + sizeOf br ≤ n →
      genBinop ty bl br g = Except.ok (ro, g') →
      ExtL g.nlabel g g' ∧ ∀ r, ro = some r → g.nreg ≤ r ∧ r < g'.nreg) ∧
    (∀ (args : List NodeG) (i : Nat) (arr : List Nat) (g : GenState)
      (arr' : List Nat) (g' : GenState), sizeOf args ≤ n →
      genCallArgs args i arr g = Except.ok (arr', g') →
      ExtL g.nlabel g g') ∧
    (∀ (node : NodeG) (g : GenState) (ro : Option Nat) (g' : GenState),
      sizeOf node ≤ n → genExpr node g = Except.ok (ro, g') →
      ExtL g.nlabel g g' ∧ ∀ r, ro = some r → g.nreg ≤ r ∧ r < g'.nreg) := by
  intro n
  induction n with
  | zero =>
      refine ⟨?_, ?_, ?_, ?_⟩
      · intro node g ro g' hsz h
        exact absurd hsz (by have := sizeOfNodeG_pos node; omega)
      · intro ty bl br g ro g' hty hsz h
        exact absurd hsz (by have := sizeOfNodeG_pos bl; omega)
      · intro args i arr g arr' g' hsz h
        exact absurd hsz (by have := sizeOfListNodeG_pos args; omega)
      · intro node g ro g' hsz h
        exact absurd hsz (by have := sizeOfNodeG_pos node; omega)
  | succ n ih =>
      obtain ⟨ihL, ihB, ihA, ihE⟩ := ih
      refine ⟨?_, ?_, ?_, ?_⟩
      · -- gen_lval
        intro node g ro g' hsz h
        rcases node with ⟨op, nty, noff, nss⟩
        cases op
        case lvar =>
          rw [genLval] at h
          simp only [newReg, NodeG.offset] at h
          obtain ⟨h1, h2⟩ := Prod.mk.inj (Except.ok.inj h)
          subst h2
          subst h1
          constructor
          · exact ExtL.trans (ExtL.newRegStep g)
              (ExtL.trans (ExtL.emit_plain .mov _ _ _ (by simp))
                (ExtL.emit_plain .subImm _ _ _ (by simp)))
          · intro r hr
            cases hr
            simp [newReg]
        case deref de =>
          rw [genLval] at h
          exact ihE de g ro g' (by simp at hsz; omega) h
        all_goals simp [genLval] at h
      · -- gen_binop
        intro ty bl br g ro g' hty hsz h
        rw [genBinop] at h
        rcases hL : genExpr bl g with e | ⟨r1, s2⟩
        · rw [hL] at h; exact absurd h (by simp)
        rw [hL] at h
        try dsimp only at h
        rcases hR : genExpr br s2 with e | ⟨r2, s3⟩
        · rw [hR] at h; exact absurd h (by simp)
        rw [hR] at h
        try dsimp only at h
        obtain ⟨h1, h2⟩ := Prod.mk.inj (Except.ok.inj h)
        subst h2
        subst h1
        obtain ⟨eL, bL⟩ := ihE bl g r1 s2 (by have := sizeOfNodeG_pos br; omega) hL
        obtain ⟨eR, bR⟩ := ihE br s2 r2 s3 (by have := sizeOfNodeG_pos bl; omega) hR
        have n1 : g.nlabel ≤ s2.nlabel := eL.2.1
        have n2 : g.nreg ≤ s2.nreg := eL.1
        have n3 : s2.nreg ≤ s3.nreg := eR.1
        refine ⟨ExtL.trans eL (ExtL.trans (ExtL.mono n1 eR)
          (ExtL.trans (ExtL.emit_plain ty r1 r2 s3 hty) (ExtL.kill r2 _))), ?_⟩
        intro r hr
        obtain ⟨a, b⟩ := bL r hr
        refine ⟨a, ?_⟩
        simp [killR]
        omega
      · -- the call-argument loop
        intro args i arr g arr' g' hsz h
        cases args with
        | nil =>
            rw [genCallArgs] at h
            obtain ⟨h1, h2⟩ := Prod.mk.inj (Except.ok.inj h)
            subst h2
            exact ExtL.refl _ _
        | cons a rest =>
            rw [genCallArgs] at h
            rcases hA : genExpr a g with e | ⟨ro0, s2⟩
            · rw [hA] at h; exact absurd h (by simp)
            rw [hA] at h
            try dsimp only at h
            rcases ro0 with _ | r
            · exact absurd h (by simp)
            try dsimp only at h
            by_cases hi : i < 6
            · rw [if_pos hi] at h
              obtain ⟨eA, _⟩ := ihE a g (some r) s2 (by simp at hsz; omega) hA
              have n1 : g.nlabel ≤ s2.nlabel := eA.2.1
              exact ExtL.trans eA (ExtL.mono n1
                (ihA rest (i + 1) (arr.set i r) s2 arr' g'
                  (by simp at hsz; omega) h))
            · rw [if_neg hi] at h
              exact absurd h (by simp)
      · -- gen_expr
        intro node g ro g' hsz h
        rcases node with ⟨op, nty, noff, nss⟩
        cases op
        case num v =>
          rw [genExpr] at h
          simp only [newReg] at h
          obtain ⟨h1, h2⟩ := Prod.mk.inj (Except.ok.inj h)
          subst h2
          subst h1
          refine ⟨ExtL.trans (ExtL.newRegStep g)
            (ExtL.emit_plain .imm _ _ _ (by simp)), ?_⟩
          intro r hr
          cases hr
          simp [newReg]
        case logand ll lr =>
          rw [genExpr] at h
          simp only [newLabel] at h
          rcases hL : genExpr ll { g with nlabel := g.nlabel + 1 } with e | ⟨r1, s2⟩
          · rw [hL] at h; exact absurd h (by simp)
          rw [hL] at h
          try dsimp only at h
          rcases hR : genExpr lr (emit .unless r1 (some g.nlabel) s2) with e | ⟨r2, s3⟩
          · rw [hR] at h; exact absurd h (by simp)
          rw [hR] at h
          try dsimp only at h
          obtain ⟨h1, h2⟩ := Prod.mk.inj (Except.ok.inj h)
          subst h2
          subst h1
          obtain ⟨eL, bL⟩ := ihE ll _ r1 s2 (by simp at hsz; omega) hL
          obtain ⟨eR, bR⟩ := ihE lr _ r2 s3 (by simp at hsz; omega) hR
          have n1 : g.nlabel + 1 ≤ s2.nlabel := eL.2.1
          have n2 : s2.nlabel ≤ s3.nlabel := eR.2.1
          have n3 : g.nreg ≤ s2.nreg := eL.1
          have n4 : s2.nreg ≤ s3.nreg := eR.1
          constructor
          · refine ExtL.trans (ExtL.newLabelStep g) (ExtL.trans
              (ExtL.mono (Nat.le_succ g.nlabel) eL) (ExtL.trans
              (ExtL.emit_plain .unless r1 (some g.nlabel) s2 (by simp))
              (ExtL.trans (ExtL.mono (by simp; omega) eR) (ExtL.trans
              (ExtL.trans (ExtL.emit_plain .mov r1 r2 s3 (by simp))
                (ExtL.kill r2 _))
              (ExtL.trans (ExtL.trans
                (ExtL.emit_plain .unless r1 (some g.nlabel) _ (by simp))
                (ExtL.emit_plain .imm r1 (some 1) _ (by simp)))
                (ExtL.label g.nlabel _ (le_refl _) (by simp [killR]; omega)))))))
          · intro r hr
            obtain ⟨a, b⟩ := bL r hr
            refine ⟨a, ?_⟩
            simp [labelI, killR]
            omega
        case logor ll lr =>
          rw [genExpr] at h
          simp only [newLabel] at h
          rcases hL : genExpr ll { g with nlabel := g.nlabel + 1 + 1 } with e | ⟨r1, s2⟩
          · rw [hL] at h; exact absurd h (by simp)
          rw [hL] at h
          try dsimp only at h
          rcases hR : genExpr lr (labelI (some g.nlabel)
              (emit .jmp (some (g.nlabel + 1)) none
                (emit .imm r1 (some 1)
                  (emit .unless r1 (some g.nlabel) s2)))) with e | ⟨r2, s3⟩
          · rw [hR] at h; exact absurd h (by simp)
          rw [hR] at h
          try dsimp only at h
          obtain ⟨h1, h2⟩ := Prod.mk.inj (Except.ok.inj h)
          subst h2
          subst h1
          obtain ⟨eL, bL⟩ := ihE ll _ r1 s2 (by simp at hsz; omega) hL
          obtain ⟨eR, bR⟩ := ihE lr _ r2 s3 (by simp at hsz; omega) hR
          have n1 : g.nlabel + 2 ≤ s2.nlabel := eL.2.1
          have n2 : s2.nlabel ≤ s3.nlabel := by
            have := eR.2.1
            simpa [labelI] using this
          have n3 : g.nreg ≤ s2.nreg := eL.1
          have n4 : s2.nreg ≤ s3.nreg := by
            have := eR.1
            simpa [labelI] using this
          constructor
          · refine ExtL.trans (ExtL.newLabelStep g)
              (ExtL.trans (ExtL.newLabelStep _)
              (ExtL.trans (ExtL.mono (by simp; omega) eL)
              (ExtL.trans (ExtL.trans (ExtL.trans
                (ExtL.emit_plain .unless r1 (some g.nlabel) s2 (by simp))
                (ExtL.emit_plain .imm r1 (some 1) _ (by simp)))
                (ExtL.trans (ExtL.emit_plain .jmp (some (g.nlabel + 1)) none _ (by simp))
                  (ExtL.label g.nlabel _ (le_refl _) (by simp [labelI, killR]; omega))))
              (ExtL.trans (ExtL.mono (by simp [labelI]; omega) eR)
              (ExtL.trans (ExtL.trans (ExtL.emit_plain .mov r1 r2 s3 (by simp))
                (ExtL.kill r2 _))
              (ExtL.trans (ExtL.trans
                (ExtL.emit_plain .unless r1 (some (g.nlabel + 1)) _ (by simp))
                (ExtL.emit_plain .imm r1 (some 1) _ (by simp)))
                (ExtL.label (g.nlabel + 1) _ (by omega)
                  (by simp [labelI, killR]; omega))))))))
          · intro r hr
            obtain ⟨a, b⟩ := bL r hr
            refine ⟨a, ?_⟩
            simp [labelI, killR]
            omega
        case lvar =>
          rcases nty with ⟨ct⟩
          rw [genExpr] at h
          simp only [newReg, NodeG.ty, NodeG.offset, TyG.ty] at h
          cases ct <;>
            (try dsimp only at h;
             obtain ⟨h1, h2⟩ := Prod.mk.inj (Except.ok.inj h);
             subst h2; subst h1;
             refine ⟨ExtL.trans (ExtL.newRegStep g) (ExtL.trans
               (ExtL.emit_plain .mov _ _ _ (by simp)) (ExtL.trans
               (ExtL.emit_plain .subImm _ _ _ (by simp))
               (ExtL.emit_plain _ _ _ _ (by simp)))), ?_⟩;
             intro r hr;
             cases hr;
             simp [newReg])
        case call cn ca =>
          rw [genExpr] at h
          rcases hA : genCallArgs ca 0 (List.replicate 6 0) g with e | ⟨argsIr, s2⟩
          · rw [hA] at h; exact absurd h (by simp)
          rw [hA] at h
          simp only [newReg] at h
          try dsimp only at h
          obtain ⟨h1, h2⟩ := Prod.mk.inj (Except.ok.inj h)
          subst h2
          subst h1
          have eA : ExtL g.nlabel g s2 :=
            ihA ca 0 (List.replicate 6 0) g argsIr s2 (by simp at hsz; omega) hA
          constructor
          · exact ExtL.trans eA (ExtL.trans (ExtL.newRegStep s2)
              (ExtL.trans (ExtL.emit_plain (.call cn ca.length argsIr) _ _ _ (by simp))
              (extKillFold _ _ _)))
          · intro r hr
            cases hr
            have n1 : g.nreg ≤ s2.nreg := eA.1
            refine ⟨n1, ?_⟩
            rw [killFold_nreg]
            simp [newReg]
        case addr ae =>
          rw [genExpr] at h
          exact ihL ae g ro g' (by simp at hsz; omega) h
        case deref de =>
          rw [genExpr] at h
          rcases hD : genExpr de g with e | ⟨r1, s2⟩
          · rw [hD] at h; exact absurd h (by simp)
          rw [hD] at h
          try dsimp only at h
          obtain ⟨h1, h2⟩ := Prod.mk.inj (Except.ok.inj h)
          subst h2
          subst h1
          obtain ⟨eD, bD⟩ := ihE de g r1 s2 (by simp at hsz; omega) hD
          refine ⟨ExtL.trans eD (ExtL.emit_plain .load64 r1 r1 s2 (by simp)), ?_⟩
          intro r hr
          obtain ⟨a, b⟩ := bD r hr
          exact ⟨a, by simp; omega⟩
        case binOp bop bl br =>
          rcases nty with ⟨ct⟩
          cases bop
          case equal =>
            rw [genExpr] at h
            rcases hR : genExpr br g with e | ⟨rhsR, s2⟩
            · rw [hR] at h; exact absurd h (by simp)
            rw [hR] at h
            try dsimp only at h
            rcases hL : genLval bl s2 with e | ⟨lhsR, s3⟩
            · rw [hL] at h; exact absurd h (by simp)
            rw [hL] at h
            simp only [NodeG.ty, TyG.ty] at h
            try dsimp only at h
            obtain ⟨eR, bR⟩ := ihE br g rhsR s2 (by simp at hsz; omega) hR
            obtain ⟨eL, bL⟩ := ihL bl s2 lhsR s3 (by simp at hsz; omega) hL
            have n1 : g.nlabel ≤ s2.nlabel := eR.2.1
            have n2 : g.nreg ≤ s2.nreg := eR.1
            have n3 : s2.nreg ≤ s3.nreg := eL.1
            cases ct <;>
              (try dsimp only at h;
               obtain ⟨h1, h2⟩ := Prod.mk.inj (Except.ok.inj h);
               subst h2; subst h1;
               refine ⟨ExtL.trans eR (ExtL.trans (ExtL.mono n1 eL)
                 (ExtL.trans (ExtL.emit_plain _ _ _ _ (by simp))
                   (ExtL.kill _ _))), ?_⟩;
               intro r hr;
               obtain ⟨a, b⟩ := bL r hr;
               exact ⟨by omega, by simp [killR]; omega⟩)
          case plus =>
            rw [genExpr] at h
            simp only [IROp.fromToken] at h
            try dsimp only at h
            rcases hty2 : bl.ty.ty with _ | ptrOf | ⟨aOf, aLen⟩
            · rw [hty2] at h
              try dsimp only at h
              exact ihB .add bl br g ro g' (by simp) (by simp at hsz; omega) h
            case ptr =>
              rw [hty2] at h
              try dsimp only at h
              rcases hR : genExpr br g with e | ⟨rhsR, s2⟩
              · rw [hR] at h; exact absurd h (by simp)
              rw [hR] at h
              simp only [newReg] at h
              try dsimp only at h
              rcases hL : genExpr bl (killR (some s2.nreg)
                  (emit .mul rhsR (some s2.nreg)
                    (emit .imm (some s2.nreg) (some (size_of ptrOf))
                      { s2 with nreg := s2.nreg + 1,
                                allocs := s2.allocs ++ [s2.nreg] }))) with e | ⟨lhsR, s3⟩
              · rw [hL] at h; exact absurd h (by simp)
              rw [hL] at h
              try dsimp only at h
              obtain ⟨h1, h2⟩ := Prod.mk.inj (Except.ok.inj h)
              subst h2
              subst h1
              obtain ⟨eR, bR⟩ := ihE br g rhsR s2 (by simp at hsz; omega) hR
              obtain ⟨eL, bL⟩ := ihE bl _ lhsR s3 (by simp at hsz; omega) hL
              have n1 : g.nlabel ≤ s2.nlabel := eR.2.1
              have n2 : g.nreg ≤ s2.nreg := eR.1
              have n3 : s2.nreg + 1 ≤ s3.nreg := by
                have := eL.1
                simpa [killR] using this
              have n4 : s2.nlabel ≤ s3.nlabel := by
                have := eL.2.1
                simpa [killR] using this
              constructor
              · refine ExtL.trans eR (ExtL.trans (ExtL.mono n1
                  (ExtL.trans (ExtL.newRegStep s2) (ExtL.trans
                    (ExtL.emit_plain .imm _ _ _ (by simp))
                    (ExtL.trans (ExtL.emit_plain .mul _ _ _ (by simp))
                      (ExtL.kill _ _)))))
                  (ExtL.trans (ExtL.mono (by simp [killR]; omega) eL)
                    (ExtL.trans (ExtL.emit_plain .add _ _ _ (by simp))
                      (ExtL.kill _ _))))
              · intro r hr
                obtain ⟨a, b⟩ := bL r hr
                have n5 : s2.nreg + 1 ≤ r := by
                  have := a
                  simpa [killR] using this
                exact ⟨by omega, by simp [killR]; omega⟩
            case ary =>
              rw [hty2] at h
              try dsimp only at h
              exact ihB .add bl br g ro g' (by simp) (by simp at hsz; omega) h
          case minus =>
            rw [genExpr] at h
            simp only [IROp.fromToken] at h
            try dsimp only at h
            rcases hty2 : bl.ty.ty with _ | ptrOf | ⟨aOf, aLen⟩
            · rw [hty2] at h
              try dsimp only at h
              exact ihB .sub bl br g ro g' (by simp) (by simp at hsz; omega) h
            case ptr =>
              rw [hty2] at h
              try dsimp only at h
              rcases hR : genExpr br g with e | ⟨rhsR, s2⟩
              · rw [hR] at h; exact absurd h (by simp)
              rw [hR] at h
              simp only [newReg] at h
              try dsimp only at h
              rcases hL : genExpr bl (killR (some s2.nreg)
                  (emit .mul rhsR (some s2.nreg)
                    (emit .imm (some s2.nreg) (some (size_of ptrOf))
                      { s2 with nreg := s2.nreg + 1,
                                allocs := s2.allocs ++ [s2.nreg] }))) with e | ⟨lhsR, s3⟩
              · rw [hL] at h; exact absurd h (by simp)
              rw [hL] at h
              try dsimp only at h
              obtain ⟨h1, h2⟩ := Prod.mk.inj (Except.ok.inj h)
              subst h2
              subst h1
              obtain ⟨eR, bR⟩ := ihE br g rhsR s2 (by simp at hsz; omega) hR
              obtain ⟨eL, bL⟩ := ihE bl _ lhsR s3 (by simp at hsz; omega) hL
              have n1 : g.nlabel ≤ s2.nlabel := eR.2.1
              have n2 : g.nreg ≤ s2.nreg := eR.1
              have n3 : s2.nreg + 1 ≤ s3.nreg := by
                have := eL.1
                simpa [killR] using this
              have n4 : s2.nlabel ≤ s3.nlabel := by
                have := eL.2.1
                simpa [killR] using this
              constructor
              · refine ExtL.trans eR (ExtL.trans (ExtL.mono n1
                  (ExtL.trans (ExtL.newRegStep s2) (ExtL.trans
                    (ExtL.emit_plain .imm _ _ _ (by simp))
                    (ExtL.trans (ExtL.emit_plain .mul _ _ _ (by simp))
                      (ExtL.kill _ _)))))
                  (ExtL.trans (ExtL.mono (by simp [killR]; omega) eL)
                    (ExtL.trans (ExtL.emit_plain .sub _ _ _ (by simp))
                      (ExtL.kill _ _))))
              · intro r hr
                obtain ⟨a, b⟩ := bL r hr
                have n5 : s2.nreg + 1 ≤ r := by
                  have := a
                  simpa [killR] using this
                exact ⟨by omega, by simp [killR]; omega⟩
            case ary =>
              rw [hty2] at h
              try dsimp only at h
              exact ihB .sub bl br g ro g' (by simp) (by simp at hsz; omega) h
          case mul =>
            rw [genExpr] at h
            case _ =>
              simp only [IROp.fromToken] at h
              try dsimp only at h
              exact ihB .mul bl br g ro g' (by simp) (by simp at hsz; omega) h
            all_goals simp
          case div =>
            rw [genExpr] at h
            case _ =>
              simp only [IROp.fromToken] at h
              try dsimp only at h
              exact ihB .div bl br g ro g' (by simp) (by simp at hsz; omega) h
            all_goals simp
          case leftAngleBracket =>
            rw [genExpr] at h
            case _ =>
              simp only [IROp.fromToken] at h
              try dsimp only at h
              exact ihB .lt bl br g ro g' (by simp) (by simp at hsz; omega) h
            all_goals simp
          case rightAngleBracket =>
            rw [genExpr] at h
            case _ =>
              simp only [IROp.fromToken] at h
              try dsimp only at h
              exact ihB .lt bl br g ro g' (by simp) (by simp at hsz; omega) h
            all_goals simp
          case exclamation =>
            rw [genExpr] at h
            case _ =>
              simp only [IROp.fromToken] at h
              exact absurd h (by simp)
            all_goals simp
        all_goals simp [genExpr] at h

theorem extLval (node : NodeG) (g : GenState) (ro : Option Nat)
    (g' : GenState) (h : genLval node g = .ok (ro, g')) :
    ExtL g.nlabel g g' ∧ ∀ r, ro = some r → g.nreg ≤ r ∧ r < g'.nreg :=
  (extAll (sizeOf node)).1 node g ro g' (le_refl _) h

theorem extBinop (ty : IROp) (bl br : NodeG) (g : GenState)
    (ro : Option Nat) (g' : GenState) (hty : ty ≠ IROp.label)
    (h : genBinop ty bl br g = .ok (ro, g')) :
    ExtL g.nlabel g g' ∧ ∀ r, ro = some r → g.nreg ≤ r ∧ r < g'.nreg :=
  (extAll (sizeOf bl + sizeOf br)).2.1 ty bl br g ro g' hty (le_refl _) h

theorem extCallArgs (args : List NodeG) (i : Nat) (arr : List Nat)
    (g : GenState) (arr' : List Nat) (g' : GenState)
    (h : genCallArgs args i arr g = .ok (arr', g')) :
    ExtL g.nlabel g g' :=
  (extAll (sizeOf args)).2.2.1 args i arr g arr' g' (le_refl _) h

theorem extExpr (node : NodeG) (g : GenState) (ro : Option Nat)
    (g' : GenState) (h : genExpr node g = .ok (ro, g')) :
    ExtL g.nlabel g g' ∧ ∀ r, ro = some r → g.nreg ≤ r ∧ r < g'.nreg :=
  (extAll (sizeOf node)).2.2.2 node g ro g' (le_refl _) h

theorem sizeOfListNodeG_posB (l : List NodeG) : 0 < sizeOf l := by
  cases l <;> simp

/-- State extension for the statement generators, by strong induction
on node size. -/
theorem extStmtAll : ∀ n : Nat,
    (∀ (node : NodeG) (g : GenState) (g' : GenState),
      sizeOf node ≤ n → genStmt node g = Except.ok g' →
      ExtL g.nlabel g g') ∧
    (∀ (stmts : List NodeG) (g : GenState) (g' : GenState),
      sizeOf stmts ≤ n → genStmtList stmts g = Except.ok g' →
      ExtL g.nlabel g g') := by
  intro n
  induction n with
  | zero =>
      constructor
      · intro node g g' hsz h
        exact absurd hsz (by have := sizeOfNodeG_pos node; omega)
      · intro stmts g g' hsz h
        exact absurd hsz (by have := sizeOfListNodeG_posB stmts; omega)
  | succ n ih =>
      obtain ⟨ihS, ihSL⟩ := ih
      constructor
      · intro node g g' hsz h
        rcases node with ⟨op, nty, noff, nss⟩
        cases op
        case vardef vn vi =>
          rcases nty with ⟨ct⟩
          rcases vi with _ | init
          · rw [genStmt] at h
            try dsimp only at h
            cases Except.ok.inj h
            exact ExtL.refl _ _
          · rw [genStmt] at h
            try dsimp only at h
            rcases hI : genExpr init g with e | ⟨rhs, s2⟩
            · rw [hI] at h; exact absurd h (by simp)
            rw [hI] at h
            simp only [newReg, NodeG.ty, NodeG.offset, TyG.ty] at h
            obtain ⟨eI, _⟩ := extExpr init g rhs s2 hI
            cases ct <;>
              (try dsimp only at h;
               cases Except.ok.inj h;
               exact ExtL.trans eI (ExtL.trans (ExtL.newRegStep s2)
                 (ExtL.trans (ExtL.emit_plain .mov _ _ _ (by simp))
                 (ExtL.trans (ExtL.emit_plain .subImm _ _ _ (by simp))
                 (ExtL.trans (ExtL.emit_plain _ _ _ _ (by simp))
                 (ExtL.trans (ExtL.kill _ _) (ExtL.kill _ _)))))))
        case ifN cond then_ elsMay =>
          rcases elsMay with _ | els
          · rw [genStmt] at h
            try dsimp only at h
            simp only [newLabel] at h
            rcases hC : genExpr cond { g with nlabel := g.nlabel + 1 } with e | ⟨r, s2⟩
            · rw [hC] at h; exact absurd h (by simp)
            rw [hC] at h
            try dsimp only at h
            rcases hT : genStmt then_ (killR r (emit .unless r (some g.nlabel) s2))
              with e | s3
            · rw [hT] at h; exact absurd h (by simp)
            rw [hT] at h
            try dsimp only at h
            cases Except.ok.inj h
            obtain ⟨eC, _⟩ := extExpr cond _ r s2 hC
            have eT := ihS then_ _ s3 (by simp at hsz; omega) hT
            have n1 : g.nlabel + 1 ≤ s2.nlabel := eC.2.1
            have n2 : s2.nlabel ≤ s3.nlabel := by
              have := eT.2.1
              simpa [killR] using this
            exact ExtL.trans (ExtL.newLabelStep g)
              (ExtL.trans (ExtL.mono (by first | omega | (simp [labelI, killR, newReg]; omega) | simp [labelI, killR, newReg]) eC)
              (ExtL.trans (ExtL.emit_plain .unless r (some g.nlabel) s2 (by simp))
              (ExtL.trans (ExtL.kill r _)
              (ExtL.trans (ExtL.mono (by first | omega | (simp [labelI, killR, newReg]; omega) | simp [labelI, killR, newReg]) eT)
                (ExtL.label g.nlabel s3 (le_refl _) (by first | omega | (simp [labelI, killR, newReg]; omega) | simp [labelI, killR, newReg]))))))
          · rw [genStmt] at h
            try dsimp only at h
            split at h
            · exact absurd h (by simp)
            next sB hStep =>
              simp only [newLabel] at hStep
              rcases hC1 : genExpr cond { g with nlabel := g.nlabel + 1 + 1 }
                with e | ⟨r1, s2⟩
              · rw [hC1] at hStep; exact absurd hStep (by simp)
              rw [hC1] at hStep
              try dsimp only at hStep
              rcases hT1 : genStmt then_ (killR r1 (emit .unless r1 (some g.nlabel) s2))
                with e | s3
              · rw [hT1] at hStep; exact absurd hStep (by simp)
              rw [hT1] at hStep
              try dsimp only at hStep
              rcases hE : genStmt els (labelI (some g.nlabel)
                  (emit .jmp (some (g.nlabel + 1)) none s3)) with e | s4
              · rw [hE] at hStep; exact absurd hStep (by simp)
              rw [hE] at hStep
              try dsimp only at hStep
              cases Except.ok.inj hStep
              obtain ⟨eC1, _⟩ := extExpr cond _ r1 s2 hC1
              have eT1 := ihS then_ _ s3 (by simp at hsz; omega) hT1
              have eE := ihS els _ s4 (by simp at hsz; omega) hE
              have n1 : g.nlabel + 2 ≤ s2.nlabel := eC1.2.1
              have n2 : s2.nlabel ≤ s3.nlabel := by
                have := eT1.2.1
                simpa [killR] using this
              have n3 : s3.nlabel ≤ s4.nlabel := by
                have := eE.2.1
                simpa [labelI] using this
              have eB : ExtL g.nlabel g (labelI (some (g.nlabel + 1)) s4) :=
                ExtL.trans (ExtL.newLabelStep g)
                  (ExtL.trans (ExtL.newLabelStep _)
                  (ExtL.trans (ExtL.mono (by first | omega | (simp [labelI, killR, newReg]; omega) | simp [labelI, killR, newReg]) eC1)
                  (ExtL.trans (ExtL.emit_plain .unless r1 (some g.nlabel) s2 (by simp))
                  (ExtL.trans (ExtL.kill r1 _)
                  (ExtL.trans (ExtL.mono (by first | omega | (simp [labelI, killR, newReg]; omega) | simp [labelI, killR, newReg]) eT1)
                  (ExtL.trans (ExtL.emit_plain .jmp (some (g.nlabel + 1)) none s3 (by simp))
                  (ExtL.trans (ExtL.label g.nlabel _ (le_refl _) (by first | omega | (simp [labelI, killR, newReg]; omega) | simp [labelI, killR, newReg]))
                  (ExtL.trans (ExtL.mono (by first | omega | (simp [labelI, killR, newReg]; omega) | simp [labelI, killR, newReg]) eE)
                    (ExtL.label (g.nlabel + 1) s4 (by omega) (by first | omega | (simp [labelI, killR, newReg]; omega) | simp [labelI, killR, newReg]))))))))))
              -- the shared no-else tail, from state sB
              simp only [newLabel] at h
              rcases hC2 : genExpr cond
                  { labelI (some (g.nlabel + 1)) s4 with
                      nlabel := (labelI (some (g.nlabel + 1)) s4).nlabel + 1 }
                with e | ⟨r2, s5⟩
              · rw [hC2] at h; exact absurd h (by simp)
              rw [hC2] at h
              try dsimp only at h
              rcases hT2 : genStmt then_
                  (killR r2 (emit .unless r2
                    (some (labelI (some (g.nlabel + 1)) s4).nlabel) s5)) with e | s6
              · rw [hT2] at h; exact absurd h (by simp)
              rw [hT2] at h
              try dsimp only at h
              cases Except.ok.inj h
              obtain ⟨eC2, _⟩ := extExpr cond _ r2 s5 hC2
              have eT2 := ihS then_ _ s6 (by simp at hsz; omega) hT2
              have m0 : g.nlabel ≤ (labelI (some (g.nlabel + 1)) s4).nlabel := by
                have := eB.2.1
                omega
              have m1 : (labelI (some (g.nlabel + 1)) s4).nlabel + 1 ≤ s5.nlabel :=
                eC2.2.1
              have m2 : s5.nlabel ≤ s6.nlabel := by
                have := eT2.2.1
                simpa [killR] using this
              exact ExtL.trans eB
                (ExtL.trans (ExtL.newLabelStep _)
                (ExtL.trans (ExtL.mono (by first | omega | (simp [labelI, killR, newReg]; omega) | simp [labelI, killR, newReg]) eC2)
                (ExtL.trans (ExtL.emit_plain .unless r2 _ s5 (by simp))
                (ExtL.trans (ExtL.kill r2 _)
                (ExtL.trans (ExtL.mono (by first | omega | (simp [labelI, killR, newReg]; omega) | simp [labelI, killR, newReg]) eT2)
                  (ExtL.label (labelI (some (g.nlabel + 1)) s4).nlabel s6
                    (by omega) (by first | omega | (simp [labelI, killR, newReg]; omega) | simp [labelI, killR, newReg])))))))
        case forN init cond inc body =>
          rw [genStmt] at h
          simp only [newLabel] at h
          rcases hI : genStmt init { g with nlabel := g.nlabel + 1 + 1 } with e | s2
          · rw [hI] at h; exact absurd h (by simp)
          rw [hI] at h
          try dsimp only at h
          rcases hC : genExpr cond (labelI (some g.nlabel) s2) with e | ⟨r2, s3⟩
          · rw [hC] at h; exact absurd h (by simp)
          rw [hC] at h
          try dsimp only at h
          rcases hB : genStmt body (killR r2 (emit .unless r2 (some (g.nlabel + 1)) s3))
            with e | s4
          · rw [hB] at h; exact absurd h (by simp)
          rw [hB] at h
          try dsimp only at h
          rcases hInc : genExpr inc s4 with e | ⟨r3, s5⟩
          · rw [hInc] at h; exact absurd h (by simp)
          rw [hInc] at h
          try dsimp only at h
          cases Except.ok.inj h
          have eI := ihS init _ s2 (by simp at hsz; omega) hI
          obtain ⟨eC, _⟩ := extExpr cond _ r2 s3 hC
          have eB := ihS body _ s4 (by simp at hsz; omega) hB
          obtain ⟨eInc, _⟩ := extExpr inc s4 r3 s5 hInc
          have n1 : g.nlabel + 2 ≤ s2.nlabel := eI.2.1
          have n2 : s2.nlabel ≤ s3.nlabel := by
            have := eC.2.1
            simpa [labelI] using this
          have n3 : s3.nlabel ≤ s4.nlabel := by
            have := eB.2.1
            simpa [killR] using this
          have n4 : s4.nlabel ≤ s5.nlabel := eInc.2.1
          exact ExtL.trans (ExtL.newLabelStep g)
            (ExtL.trans (ExtL.newLabelStep _)
            (ExtL.trans (ExtL.mono (by first | omega | (simp [labelI, killR, newReg]; omega) | simp [labelI, killR, newReg]) eI)
            (ExtL.trans (ExtL.label g.nlabel s2 (le_refl _) (by first | omega | (simp [labelI, killR, newReg]; omega) | simp [labelI, killR, newReg]))
            (ExtL.trans (ExtL.mono (by first | omega | (simp [labelI, killR, newReg]; omega) | simp [labelI, killR, newReg]) eC)
            (ExtL.trans (ExtL.emit_plain .unless r2 (some (g.nlabel + 1)) s3 (by simp))
            (ExtL.trans (ExtL.kill r2 _)
            (ExtL.trans (ExtL.mono (by first | omega | (simp [labelI, killR, newReg]; omega) | simp [labelI, killR, newReg]) eB)
            (ExtL.trans (ExtL.mono (by first | omega | (simp [labelI, killR, newReg]; omega) | simp [labelI, killR, newReg]) eInc)
            (ExtL.trans (ExtL.kill r3 _)
            (ExtL.trans (ExtL.emit_plain .jmp (some g.nlabel) none _ (by simp))
              (@ExtL.label g.nlabel (g.nlabel + 1) _ (by omega) (by first | omega | (simp [labelI, killR, newReg]; omega) | simp [labelI, killR, newReg]))))))))))))
        case retN re =>
          rw [genStmt] at h
          rcases hr : genExpr re g with e | ⟨r, s2⟩
          · rw [hr] at h; exact absurd h (by simp)
          rw [hr] at h
          try dsimp only at h
          cases Except.ok.inj h
          obtain ⟨eR, _⟩ := extExpr re g r s2 hr
          exact ExtL.trans eR (ExtL.trans (ExtL.emit_plain .ret r none s2 (by simp))
            (ExtL.kill r _))
        case exprStmt ese =>
          rw [genStmt] at h
          rcases hr : genExpr ese g with e | ⟨r, s2⟩
          · rw [hr] at h; exact absurd h (by simp)
          rw [hr] at h
          try dsimp only at h
          cases Except.ok.inj h
          obtain ⟨eR, _⟩ := extExpr ese g r s2 hr
          exact ExtL.trans eR (ExtL.kill r _)
        case compStmt cs =>
          rw [genStmt] at h
          exact ihSL cs g g' (by simp at hsz; omega) h
        all_goals simp [genStmt] at h
      · intro stmts g g' hsz h
        cases stmts with
        | nil =>
            rw [genStmtList] at h
            cases Except.ok.inj h
            exact ExtL.refl _ _
        | cons a rest =>
            rw [genStmtList] at h
            rcases hA : genStmt a g with e | s2
            · rw [hA] at h; exact absurd h (by simp)
            rw [hA] at h
            try dsimp only at h
            have eA := ihS a g s2 (by simp at hsz; omega) hA
            have n1 : g.nlabel ≤ s2.nlabel := eA.2.1
            exact ExtL.trans eA (ExtL.mono n1
              (ihSL rest s2 g' (by simp at hsz; omega) h))

theorem extStmt (node : NodeG) (g : GenState) (g' : GenState)
    (h : genStmt node g = .ok g') : ExtL g.nlabel g g' :=
  (extStmtAll (sizeOf node)).1 node g g' (le_refl _) h

theorem killFold_code (l : List Nat) (f : Nat → Option Nat) :
    ∀ s : GenState, (l.foldl (fun s i => killR (f i) s) s).code =
      s.code ++ l.map (fun i => IR.mk .kill (f i) none) := by
  induction l with
  | nil => intro s; simp
  | cons a t ih =>
      intro s
      simp only [List.foldl_cons, List.map_cons]
      rw [ih (killR (f a) s)]
      simp [killR]

theorem genCallArgsSpec (args : List NodeG) :
    ∀ (i : Nat) (arr : List Nat) (g : GenState) (arr' : List Nat)
      (g' : GenState), arr.length = 6 → i ≤ 6 →
      genCallArgs args i arr g = .ok (arr', g') →
      i + args.length ≤ 6 ∧ arr'.length = 6 ∧ g.nreg ≤ g'.nreg ∧
      (∀ j, j < i → arr'.getD j 0 = arr.getD j 0) ∧
      (∀ j, j < args.length →
        g.nreg ≤ arr'.getD (i + j) 0 ∧ arr'.getD (i + j) 0 < g'.nreg) ∧
      (∀ j1 j2, j1 < j2 → j2 < args.length →
        arr'.getD (i + j1) 0 < arr'.getD (i + j2) 0) := by
  induction args with
  | nil =>
      intro i arr g arr' g' hlen hle h
      rw [genCallArgs] at h
      obtain ⟨h1, h2⟩ := Prod.mk.inj (Except.ok.inj h)
      subst h1
      subst h2
      refine ⟨by simp only [List.length_nil]; omega, hlen, le_refl _,
        fun j _ => rfl, ?_, ?_⟩
      · intro j hj; exact absurd hj (by simp)
      · intro j1 j2 _ hj; exact absurd hj (by simp)
  | cons a rest ih =>
      intro i arr g arr' g' hlen hle h
      rw [genCallArgs] at h
      rcases hA : genExpr a g with e | ⟨ro0, s2⟩
      · rw [hA] at h; exact absurd h (by simp)
      rw [hA] at h
      try dsimp only at h
      rcases ro0 with _ | r
      · exact absurd h (by simp)
      try dsimp only at h
      by_cases hi : i < 6
      · rw [if_pos hi] at h
        obtain ⟨eA, bA⟩ := extExpr a g (some r) s2 hA
        obtain ⟨hr1, hr2⟩ := bA r rfl
        obtain ⟨q1, q2, q3, q4, q5, q6⟩ :=
          ih (i + 1) (arr.set i r) s2 arr' g' (by simpa using hlen) (by omega) h
        have hgetset : (arr.set i r).getD i 0 = r := by
          rw [List.getD_eq_getElem?_getD]
          rw [List.getElem?_set_self (by omega)]
          rfl
        have hsetne : ∀ j, j ≠ i → (arr.set i r).getD j 0 = arr.getD j 0 := by
          intro j hj
          rw [List.getD_eq_getElem?_getD, List.getElem?_set_ne (by omega),
            ← List.getD_eq_getElem?_getD]
        refine ⟨by simp only [List.length_cons]; omega, q2, by omega, ?_, ?_, ?_⟩
        · intro j hj
          rw [q4 j (by omega), hsetne j (by omega)]
        · intro j hj
          cases j with
          | zero =>
              have hv : arr'.getD (i + 0) 0 = r := by
                rw [Nat.add_zero, q4 i (by omega)]
                exact hgetset
              rw [hv]
              exact ⟨hr1, by omega⟩
          | succ k =>
              have := q5 k (by simpa using hj)
              constructor
              · have : g.nreg ≤ s2.nreg := eA.1
                have h2 := (q5 k (by simpa using hj)).1
                rw [show i + 1 + k = i + (k + 1) by omega] at h2
                omega
              · have h2 := (q5 k (by simpa using hj)).2
                rw [show i + 1 + k = i + (k + 1) by omega] at h2
                exact h2
        · intro j1 j2 hj12 hj2
          cases j1 with
          | zero =>
              cases j2 with
              | zero => omega
              | succ k2 =>
                  have hv0 : arr'.getD (i + 0) 0 = r := by
                    rw [Nat.add_zero, q4 i (by omega)]
                    exact hgetset
                  have hv2 := (q5 k2 (by simpa using hj2)).1
                  rw [show i + 1 + k2 = i + (k2 + 1) by omega] at hv2
                  rw [hv0]
                  omega
          | succ k1 =>
              cases j2 with
              | zero => omega
              | succ k2 =>
                  have := q6 k1 k2 (by omega) (by simpa using hj2)
                  rw [show i + 1 + k1 = i + (k1 + 1) by omega,
                    show i + 1 + k2 = i + (k2 + 1) by omega] at this
                  exact this
      · rw [if_neg hi] at h
        exact absurd h (by simp)

theorem genCallArgsOOB (args : List NodeG) :
    ∀ (i : Nat) (arr : List Nat) (g : GenState), i ≤ 6 →
      6 < i + args.length →
      ∃ e, genCallArgs args i arr g = .error e := by
  induction args with
  | nil =>
      intro i arr g hle hgt
      exact absurd hgt (by simp; omega)
  | cons a rest ih =>
      intro i arr g hle hgt
      rw [genCallArgs]
      rcases hA : genExpr a g with e | ⟨ro0, s2⟩
      · exact ⟨e, rfl⟩
      try dsimp only
      rcases ro0 with _ | r
      · exact ⟨"unwrap on None", rfl⟩
      try dsimp only
      by_cases hi : i < 6
      · rw [if_pos hi]
        exact ih (i + 1) (arr.set i r) s2 (by omega)
          (by simp only [List.length_cons] at hgt; omega)
      · rw [if_neg hi]
        exact ⟨"index out of bounds", rfl⟩

end GenIr

namespace Pre

/-- C2 counterexample data: expanding an object-like macro defined on
line 1 with body `__LINE__`, at a use site on line 3, emits the numeric
literal 1 (the line of the `__LINE__` body token, i.e. the definition
site), not 3 (the use site). -/
theorem line_macro_emits_definition_line :
    (preprocessRun 20 lineMacroInput emptyCtx).map Prod.fst =
      .ok [Token.mk (.num 1) 1 false] ∧ (1 : Int) ≠ 3 :=
  ⟨rfl, by decide⟩

/-- C6: reading the arguments of `F((1,2),3)` tracks parenthesis
nesting, producing exactly the two argument token lists `(1,2)` and
`3`. -/
theorem nested_paren_args_split :
    readArgs 20 nestedArgsCtx =
      .ok ([[tk .leftParen 1, tk (.num 1) 1, tk .comma 1, tk (.num 2) 1,
             tk .rightParen 1],
            [tk (.num 3) 1]], nestedArgsCtx.withPos 8) := rfl

/-- C5: once the argument list of a function-like macro invocation has
been parsed, substitution proceeds exactly when the argument count
equals the declared parameter count, and otherwise the invocation fails
fatally with no output. -/
theorem funclike_arity_check (fuel : Nat) (tokens : List Token)
    (params : List String) (c c0 c1 : Ctx) (t : Token)
    (args : List (List Token))
    (hlp : c.getTok .leftParen "comma expected" = .ok (t, c0))
    (hargs : readArgs fuel c0 = .ok (args, c1)) :
    applyFunclike fuel tokens params c =
      if params.length = args.length then substFunclike tokens args c1
      else .error "number of parameter does not match" := by
  unfold applyFunclike
  rw [hlp]
  simp only []
  rw [hargs]
  by_cases h : params.length = args.length
  · simp [h]
  · simp [h]

/-- Witness for C5: `F(1)` against two declared parameters is
rejected. -/
theorem funclike_arity_check_witness :
    applyFunclike 5 [] ["a", "b"] mismatchCtx =
      if (["a", "b"].length = [[tk (.num 1) 1]].length) then
        substFunclike [] [[tk (.num 1) 1]] (mismatchCtx.withPos 3)
      else .error "number of parameter does not match" :=
  funclike_arity_check 5 [] ["a", "b"] mismatchCtx
    (mismatchCtx.withPos 1) (mismatchCtx.withPos 3) (tk .leftParen 1)
    [[tk (.num 1) 1]] rfl rfl

/-- C10: defining a function-like macro whose `(` is immediately
followed by `)` fails fatally demanding a parameter name, although the
same empty list at an invocation site parses as zero arguments. -/
theorem funclike_needs_parameter (fuel : Nat) (name : String) (c : Ctx)
    (t : Token) (hpeek : c.peek = some t) (hty : t.ty = .rightParen) :
    defineFunclike fuel name c = .error "parameter name expected" ∧
    readArgs fuel c = .ok ([], c.withPos (c.pp.pos + 1)) := by
  have hpos : c.pp.input.get? c.pp.pos = some t := hpeek
  have hlt : c.pp.pos < c.pp.input.length := List.get?_eq_some.mp hpos |>.1
  have hpos2 : c.pp.input[c.pp.pos]? = some t := by
    simpa using hpos
  have heof : c.eof = false := by
    simp [Ctx.eof]
    omega
  constructor
  · simp [defineFunclike, Ctx.identTok, Ctx.nextTok, heof, hpos2, hty]
  · simp [readArgs, Ctx.consume, Ctx.peek, hpos2, hty]

/-- Witness for C10: `#define F()` is rejected while `F()` at a use
site yields zero arguments. -/
theorem funclike_needs_parameter_witness :
    defineFunclike 5 "F" emptyParamsCtx = .error "parameter name expected" ∧
    readArgs 5 emptyParamsCtx = .ok ([], emptyParamsCtx.withPos (0 + 1)) :=
  funclike_needs_parameter 5 "F" emptyParamsCtx (tk .rightParen 1) rfl rfl

end Pre

namespace Sema

/-- C9: the semantic analyzer has no case for logical AND/OR nodes;
walking either form fails fatally with "unknown node type". -/
theorem walk_rejects_logand_logor (a b : NodeS) (t : TypeS) (env : EnvS)
    (d : Bool) (st : SemaSt) :
    walk (NodeS.mk (.logand a b) t) env d st = .error "unknown node type" ∧
    walk (NodeS.mk (.logor a b) t) env d st = .error "unknown node type" :=
  ⟨by rw [walk], by rw [walk]⟩

/-- C7: on a `+`/`-` node, after both operands are walked, a pointer
operand is canonicalized to the left (swapping when the pointer is on
the right), the node's resulting type is that pointer type, and two
pointer-typed operands are a fatal type error. -/
theorem plus_minus_pointer_canonicalization (tok : TokenTypeS)
    (htok : tok = .plus ∨ tok = .minus)
    (lhs rhs lhs' rhs' : NodeS) (nty : TypeS) (env env1 env2 : EnvS)
    (st st1 st2 : SemaSt) (d : Bool)
    (hwl : walk lhs env true st = .ok (lhs', env1, st1))
    (hwr : walk rhs env1 true st1 = .ok (rhs', env2, st2)) :
    (isPtrTy lhs'.ty.ty = true → isPtrTy rhs'.ty.ty = false →
      walk (NodeS.mk (.binOp tok lhs rhs) nty) env d st =
        .ok (NodeS.mk (.binOp tok lhs' rhs') lhs'.ty, env2, st2)) ∧
    (isPtrTy lhs'.ty.ty = false → isPtrTy rhs'.ty.ty = true →
      walk (NodeS.mk (.binOp tok lhs rhs) nty) env d st =
        .ok (NodeS.mk (.binOp tok rhs' lhs') rhs'.ty, env2, st2)) ∧
    (isPtrTy lhs'.ty.ty = true → isPtrTy rhs'.ty.ty = true →
      walk (NodeS.mk (.binOp tok lhs rhs) nty) env d st =
        .error "'pointer +/- pointer' is not defined") := by
  refine ⟨?_, ?_, ?_⟩ <;> intro h1 h2 <;> rcases htok with rfl | rfl <;>
    rw [walk] <;> simp only [hwl, hwr] <;>
    rcases hl : lhs'.ty.ty <;> rcases hr : rhs'.ty.ty <;>
    simp_all [isPtrTy, NodeS.withOp, NodeS.withTy]

/-- Witness for C7: `p + 1` with `p : int *` resolves to a `+` node
whose left operand is the resolved pointer variable and whose type is
`int *`. -/
theorem plus_minus_pointer_canonicalization_witness :
    walk (NodeS.mk (.binOp .plus lhsW rhsW) intTy) ptrEnv true st0 =
      .ok (NodeS.mk
            (.binOp .plus (NodeS.mk (.lvar (.localS 8)) (ptrTo intTy)) rhsW)
            (ptrTo intTy), ptrEnv, st0) := by
  have hwl : walk lhsW ptrEnv true st0 =
      .ok (NodeS.mk (.lvar (.localS 8)) (ptrTo intTy), ptrEnv, st0) := by
    rw [lhsW, walk]
    simp [EnvS.find, ptrEnv, maybeDecay, ptrTo, intTy, TypeS.ty, NodeS.ty]
  have hwr : walk rhsW ptrEnv true st0 = .ok (rhsW, ptrEnv, st0) := by
    rw [rhsW, walk]
  exact (plus_minus_pointer_canonicalization .plus (Or.inl rfl) lhsW rhsW
    (NodeS.mk (.lvar (.localS 8)) (ptrTo intTy)) rhsW intTy ptrEnv ptrEnv
    ptrEnv st0 st0 st0 true hwl hwr).1 rfl rfl

end Sema

namespace GenIr

/-- C1 behaviour at the failing input: lowering
`if (1) { return 2; } else { return 3; }` emits the else-form sequence
and then falls through into the no-else lowering, so the condition
(`MOV rN, 1`) and the then-branch each appear twice in the emitted
instruction list instead of exactly once. -/
theorem if_else_emits_condition_twice :
    genStmt ifElseNode s0 = .ok ⟨6, 3, ifElseCode, [1, 2, 3, 4, 5]⟩ ∧
    ifElseCode.countP (fun i => i.op == IROp.imm && i.rhs == some 1) = 2 ∧
    ifElseCode.countP (fun i => i.op == IROp.ret) = 3 := by
  refine ⟨?_, rfl, rfl⟩
  simp [genStmt, genExpr, emit, newReg, newLabel, killR, labelI, intToUsize,
    ifElseNode, numN, s0, intTyG, ifElseCode]

theorem genPrologue_fields (args : List NodeG) :
    ∀ (i : Nat) (s : GenState),
      (genPrologue args i s).nreg = s.nreg ∧
      (genPrologue args i s).nlabel = s.nlabel ∧
      (genPrologue args i s).allocs = s.allocs := by
  induction args with
  | nil => intro i s; exact ⟨rfl, rfl, rfl⟩
  | cons a rest ih =>
      intro i s
      rw [genPrologue]
      rcases a with ⟨aop, ⟨act⟩, aoff, ass⟩
      cases act <;> simpa using ih (i + 1) _

/-- C8: within one function's lowering, the freshly allocated virtual
register ids are exactly `[1, 2, ..., k]` — a monotonically increasing
sequence starting at 1, never containing the reserved id 0 — and the
register counter starts from 1 for every function (the state is reset
at the head of `genFunction`). -/
theorem register_ids_per_function (name : String) (args : List NodeG) (body : NodeG)
    (stacksize : Nat) (s : GenState) (f : FunctionG) (s' : GenState)
    (h : genFunction name args body stacksize s = .ok (f, s')) :
    ∃ k, s'.allocs = List.range' 1 k ∧ s'.nreg = 1 + k ∧
      (0 : Nat) ∉ s'.allocs ∧ s'.allocs.Pairwise (· < ·) := by
  rw [genFunction] at h
  rcases hB : genStmt body (genPrologue args 0
      { s with code := [], nreg := 1, allocs := [] }) with e | s2
  · rw [hB] at h; exact absurd h (by simp)
  rw [hB] at h
  dsimp only at h
  obtain ⟨h1, h2⟩ := Prod.mk.inj (Except.ok.inj h)
  subst h2
  have ext := extStmt body _ s2 hB
  obtain ⟨hp1, hp2, hp3⟩ := genPrologue_fields args 0
    { s with code := [], nreg := 1, allocs := [] }
  obtain ⟨er, el, ea, K, hc, hk⟩ := ext
  rw [hp1, hp3] at ea
  rw [hp1] at er
  have er2 : 1 ≤ s2.nreg := by simpa using er
  refine ⟨s2.nreg - 1, ?_, by omega, ?_, ?_⟩
  · simpa using ea
  · intro hmem
    rw [ea] at hmem
    simp [List.mem_range'] at hmem
    omega
  · rw [ea]
    simp
    exact List.pairwise_lt_range' 1 (s2.nreg - 1) 1 (Nat.le_refl 1)

/-- C4: call lowering fills a fixed six-slot argument array.  When the
call has at most six arguments each one is lowered, left to right, into
its own fresh register (the recorded registers are strictly
increasing, hence pairwise distinct), one call instruction records the
callee name, the argument count and the argument-register array, a
fresh result register is produced and each argument register is then
killed; with more than six arguments the array write is out of bounds
and lowering aborts. -/
theorem call_lowering_bounded_six :
  (∀ (cn : String) (ca : List NodeG) (nty : TyG) (noff nss : Nat)
    (g : GenState) (ro : Option Nat) (g' : GenState),
    genExpr (NodeG.mk (.call cn ca) nty noff nss) g = .ok (ro, g') →
    ∃ arr s1, genCallArgs ca 0 (List.replicate 6 0) g = .ok (arr, s1) ∧
      ca.length ≤ 6 ∧ ro = some s1.nreg ∧ g.nreg ≤ s1.nreg ∧
      g'.nreg = s1.nreg + 1 ∧
      g'.code = s1.code ++ [⟨.call cn ca.length arr, some s1.nreg, none⟩] ++
        (List.range ca.length).map
          (fun j => IR.mk .kill (some (arr.getD j 0)) none) ∧
      (∀ j, j < ca.length →
        g.nreg ≤ arr.getD j 0 ∧ arr.getD j 0 < s1.nreg) ∧
      (∀ j1 j2, j1 < j2 → j2 < ca.length →
        arr.getD j1 0 < arr.getD j2 0)) ∧
  (∀ (cn : String) (ca : List NodeG) (nty : TyG) (noff nss : Nat)
    (g : GenState), 6 < ca.length →
    ∃ e, genExpr (NodeG.mk (.call cn ca) nty noff nss) g = .error e) := by
  constructor
  · intro cn ca nty noff nss g ro g' h
    rw [genExpr] at h
    rcases hA : genCallArgs ca 0 (List.replicate 6 0) g with e | ⟨argsIr, s1⟩
    · rw [hA] at h; exact absurd h (by simp)
    rw [hA] at h
    simp only [newReg] at h
    try dsimp only at h
    obtain ⟨h1, h2⟩ := Prod.mk.inj (Except.ok.inj h)
    subst h2
    subst h1
    obtain ⟨q1, q2, q3, q4, q5, q6⟩ :=
      genCallArgsSpec ca 0 (List.replicate 6 0) g argsIr s1 (by simp)
        (by omega) hA
    refine ⟨argsIr, s1, rfl, by omega, rfl, q3, ?_, ?_, ?_, ?_⟩
    · rw [killFold_nreg]
      simp
    · rw [killFold_code]
      simp [emit]
    · intro j hj
      simpa using q5 j hj
    · intro j1 j2 h12 hj2
      simpa using q6 j1 j2 h12 hj2
  · intro cn ca nty noff nss g hlen
    obtain ⟨e, he⟩ := genCallArgsOOB ca 0 (List.replicate 6 0) g
      (by omega) (by omega)
    rw [genExpr, he]
    exact ⟨e, rfl⟩

/-- Witness for C4: `f(1, 2)` lowers to two immediate loads into the
fresh registers 1 and 2, one call instruction recording `f`, arity 2
and the argument array, result register 3, and kills of both argument
registers; a seven-argument call aborts. -/
theorem call_lowering_bounded_six_witness :
    (∃ arr s1, genCallArgs [numN 1, numN 2] 0 (List.replicate 6 0) s0 =
        .ok (arr, s1) ∧
      [numN 1, numN 2].length ≤ 6 ∧
      (some 3 : Option Nat) = some s1.nreg ∧ s0.nreg ≤ s1.nreg ∧
      (⟨4, 0, [⟨.imm, some 1, some 1⟩, ⟨.imm, some 2, some 2⟩,
        ⟨.call "f" 2 [1, 2, 0, 0, 0, 0], some 3, none⟩,
        ⟨.kill, some 1, none⟩, ⟨.kill, some 2, none⟩],
        [1, 2, 3]⟩ : GenState).nreg = s1.nreg + 1 ∧
      (⟨4, 0, [⟨.imm, some 1, some 1⟩, ⟨.imm, some 2, some 2⟩,
        ⟨.call "f" 2 [1, 2, 0, 0, 0, 0], some 3, none⟩,
        ⟨.kill, some 1, none⟩, ⟨.kill, some 2, none⟩],
        [1, 2, 3]⟩ : GenState).code =
        s1.code ++ [⟨.call "f" [numN 1, numN 2].length arr, some s1.nreg, none⟩] ++
        (List.range [numN 1, numN 2].length).map
          (fun j => IR.mk .kill (some (arr.getD j 0)) none) ∧
      (∀ j, j < [numN 1, numN 2].length →
        s0.nreg ≤ arr.getD j 0 ∧ arr.getD j 0 < s1.nreg) ∧
      (∀ j1 j2, j1 < j2 → j2 < [numN 1, numN 2].length →
        arr.getD j1 0 < arr.getD j2 0)) ∧
    (∃ e, genExpr (NodeG.mk
      (.call "g" [numN 1, numN 2, numN 3, numN 4, numN 5, numN 6, numN 7])
      intTyG 0 0) s0 = .error e) :=
  ⟨call_lowering_bounded_six.1 "f" [numN 1, numN 2] intTyG 0 0 s0 (some 3)
      ⟨4, 0, [⟨.imm, some 1, some 1⟩, ⟨.imm, some 2, some 2⟩,
        ⟨.call "f" 2 [1, 2, 0, 0, 0, 0], some 3, none⟩,
        ⟨.kill, some 1, none⟩, ⟨.kill, some 2, none⟩], [1, 2, 3]⟩
      (by simp [genExpr, genCallArgs, emit, newReg, killR, intToUsize,
        numN, s0, intTyG]
          decide),
   call_lowering_bounded_six.2 "g"
      [numN 1, numN 2, numN 3, numN 4, numN 5, numN 6, numN 7] intTyG 0 0 s0
      (by simp)⟩

/-- Witness for C8: lowering `main() { return 42; }` from a stale
generator state allocates exactly the register ids `[1]`. -/
theorem register_ids_per_function_witness :
    ∃ k, (⟨2, 7, [⟨.imm, some 1, some 42⟩, ⟨.ret, some 1, none⟩,
          ⟨.kill, some 1, none⟩], [1]⟩ : GenState).allocs = List.range' 1 k ∧
      (⟨2, 7, [⟨.imm, some 1, some 42⟩, ⟨.ret, some 1, none⟩,
          ⟨.kill, some 1, none⟩], [1]⟩ : GenState).nreg = 1 + k ∧
      (0 : Nat) ∉ (⟨2, 7, [⟨.imm, some 1, some 42⟩, ⟨.ret, some 1, none⟩,
          ⟨.kill, some 1, none⟩], [1]⟩ : GenState).allocs ∧
      (⟨2, 7, [⟨.imm, some 1, some 42⟩, ⟨.ret, some 1, none⟩,
          ⟨.kill, some 1, none⟩], [1]⟩ : GenState).allocs.Pairwise (· < ·) :=
  register_ids_per_function "main" [] retBody 0 staleState
    ⟨"main", [⟨.imm, some 1, some 42⟩, ⟨.ret, some 1, none⟩,
      ⟨.kill, some 1, none⟩], 0⟩
    ⟨2, 7, [⟨.imm, some 1, some 42⟩, ⟨.ret, some 1, none⟩,
      ⟨.kill, some 1, none⟩], [1]⟩
    (by simp [genFunction, genPrologue, genStmt, genExpr, emit, newReg,
      killR, intToUsize, retBody, numN, intTyG, staleState])

end GenIr

namespace GenIr

theorem run_stuck (C : List IR) (f : Nat) (pc : Nat) (m : Mach)
    (h : step C pc m = none) : run C f pc m = (pc, m, []) := by
  cases f with
  | zero => rfl
  | succ f => simp [run, h]

theorem run_append (C : List IR) :
    ∀ (f1 : Nat) (f2 pc : Nat) (m : Mach) (pc1 : Nat) (m1 : Mach)
      (t1 : List Nat) (pc2 : Nat) (m2 : Mach) (t2 : List Nat),
      run C f1 pc m = (pc1, m1, t1) → run C f2 pc1 m1 = (pc2, m2, t2) →
      run C (f1 + f2) pc m = (pc2, m2, t1 ++ t2) := by
  intro f1
  induction f1 with
  | zero =>
      intro f2 pc m pc1 m1 t1 pc2 m2 t2 h1 h2
      obtain ⟨e1, e2, e3⟩ : pc = pc1 ∧ m = m1 ∧ t1 = [] := by simpa [run] using h1
      subst e1
      subst e2
      subst e3
      simpa using h2
  | succ f ih =>
      intro f2 pc m pc1 m1 t1 pc2 m2 t2 h1 h2
      rcases hs : step C pc m with _ | ⟨pc', m'⟩
      · rw [run_stuck C (f + 1) pc m hs] at h1
        obtain ⟨e1, e2, e3⟩ : pc1 = pc ∧ m1 = m ∧ t1 = [] := by
          have := h1
          exact ⟨by cases this; rfl, by cases this; rfl, by cases this; rfl⟩
        subst e1
        subst e2
        subst e3
        rw [run_stuck C f2 pc1 m1 hs] at h2
        obtain ⟨e1, e2, e3⟩ : pc2 = pc1 ∧ m2 = m1 ∧ t2 = [] := by
          have := h2
          exact ⟨by cases this; rfl, by cases this; rfl, by cases this; rfl⟩
        subst e1
        subst e2
        subst e3
        simpa using run_stuck C (f + 1 + f2) pc2 m2 hs
      · have hrun : run C (f + 1) pc m =
            ((run C f pc' m').1, (run C f pc' m').2.1, pc :: (run C f pc' m').2.2) := by
          rw [run]
          rw [hs]
        rw [hrun] at h1
        rcases hr : run C f pc' m' with ⟨pcm, mm, tm⟩
        rw [hr] at h1
        have e1 : pcm = pc1 := by cases h1; rfl
        have e2 : mm = m1 := by cases h1; rfl
        have e3 : pc :: tm = t1 := by cases h1; rfl
        have hih := ih f2 pc' m' pcm mm tm pc2 m2 t2 hr (by rw [e1, e2]; exact h2)
        have hrun2 : run C (f + 1 + f2) pc m =
            ((run C (f + f2) pc' m').1, (run C (f + f2) pc' m').2.1,
              pc :: (run C (f + f2) pc' m').2.2) := by
          rw [show f + 1 + f2 = (f + f2) + 1 by omega, run]
          rw [hs]
        rw [hrun2, hih, ← e3]
        simp


theorem RunsTo.comp {C : List IR} {a b c : Nat} {m m1 m2 : Mach}
    {t1 t2 : List Nat} (h1 : RunsTo C a b m m1 t1)
    (h2 : RunsTo C b c m1 m2 t2) : RunsTo C a c m m2 (t1 ++ t2) := by
  obtain ⟨f1, h1⟩ := h1
  obtain ⟨f2, h2⟩ := h2
  exact ⟨f1 + f2, run_append C f1 f2 a m b m1 t1 c m2 t2 h1 h2⟩

theorem RunsTo.single {C : List IR} {a : Nat} {m : Mach} {b : Nat} {m' : Mach}
    (h : step C a m = some (b, m')) : RunsTo C a b m m' [a] := by
  refine ⟨1, ?_⟩
  simp [run, h]

theorem findLabel_eq_none (k : List IR) (x : Nat)
    (h : ∀ z ∈ labelsOf k, z ≠ x) : findLabel k x = none := by
  rw [findLabel, List.findIdx?_eq_none_iff]
  rintro ⟨op, l, r⟩ hi
  cases op <;> simp
  cases l with
  | none => simp
  | some z =>
      have hz : z ∈ labelsOf k := by
        simp only [labelsOf, List.mem_filterMap]
        exact ⟨⟨.label, some z, r⟩, hi, rfl⟩
      simpa using h z hz

theorem findLabel_append (A B : List IR) (x : Nat)
    (h : ∀ z ∈ labelsOf A, z ≠ x) :
    findLabel (A ++ B) x = (findLabel B x).map (fun i => i + A.length) := by
  have hA : List.findIdx? (fun i => i.op == IROp.label && i.lhs == some x) A = none := by
    have := findLabel_eq_none A x h
    rwa [findLabel] at this
  rw [findLabel, List.findIdx?_append, hA, findLabel]
  rfl

theorem get?_append_add (A B : List IR) (j : Nat) :
    (A ++ B).get? (A.length + j) = B.get? j := by
  rw [List.get?_append_right (by omega)]
  congr 1
  omega


theorem step_imm (C : List IR) (pc : Nat) (m : Mach) (a b : Nat)
    (h : C.get? pc = some ⟨IROp.imm, some a, some b⟩) :
    step C pc m = some (pc + 1, m.setReg a b) := by
  rw [step, h]

theorem step_mov (C : List IR) (pc : Nat) (m : Mach) (a b : Nat)
    (h : C.get? pc = some ⟨IROp.mov, some a, some b⟩) :
    step C pc m = some (pc + 1, m.setReg a (m.regs b)) := by
  rw [step, h]

theorem step_kill (C : List IR) (pc : Nat) (m : Mach) (l : Option Nat)
    (h : C.get? pc = some ⟨IROp.kill, l, none⟩) :
    step C pc m = some (pc + 1, m) := by
  rcases l with _ | a <;> rw [step, h]

theorem step_label (C : List IR) (pc : Nat) (m : Mach) (x : Nat)
    (h : C.get? pc = some ⟨IROp.label, some x, none⟩) :
    step C pc m = some (pc + 1, m) := by
  rw [step, h]

theorem step_jmp (C : List IR) (pc : Nat) (m : Mach) (x : Nat)
    (h : C.get? pc = some ⟨IROp.jmp, some x, none⟩) :
    step C pc m = (findLabel C x).map (fun i => (i, m)) := by
  rw [step, h]

theorem step_unless (C : List IR) (pc : Nat) (m : Mach) (r x : Nat)
    (h : C.get? pc = some ⟨IROp.unless, some r, some x⟩) :
    step C pc m = if m.regs r = 0 then (findLabel C x).map (fun i => (i, m))
      else some (pc + 1, m) := by
  rw [step, h]


theorem logand_glue
    (lhs rhs : NodeG) (ty : TyG) (off ss : Nat) (s : GenState)
    (rl rr : Nat) (sA sB sF : GenState)
    (m mL mR : Mach) (trL trR : List Nat)
    (hA : genExpr lhs { s with nlabel := s.nlabel + 1 } = .ok (some rl, sA))
    (hB : genExpr rhs (emit .unless (some rl) (some s.nlabel) sA) = .ok (some rr, sB))
    (hF : genExpr (NodeG.mk (.logand lhs rhs) ty off ss) s = .ok (some rl, sF))
    (hP : ∀ z ∈ labelsOf s.code, z < s.nlabel)
    (hRunL : RunsTo sF.code s.code.length sA.code.length m mL trL)
    (hConL : Confined trL s.code.length sA.code.length)
    (hRunR : mL.regs rl ≠ 0 →
      RunsTo sF.code (sA.code.length + 1) sB.code.length mL mR trR) :
    sF.code = sB.code ++
      [⟨.mov, some rl, some rr⟩, ⟨.kill, some rr, none⟩,
       ⟨.unless, some rl, some s.nlabel⟩, ⟨.imm, some rl, some 1⟩,
       ⟨.label, some s.nlabel, none⟩] ∧
    (∃ K, sB.code = sA.code ++ ⟨.unless, some rl, some s.nlabel⟩ :: K) ∧
    (mL.regs rl = 0 →
      RunsTo sF.code s.code.length (sB.code.length + 5) m mL
        (trL ++ [sA.code.length, sB.code.length + 4]) ∧
      ∀ p ∈ trL ++ [sA.code.length, sB.code.length + 4],
        p ≤ sA.code.length ∨ sB.code.length ≤ p) ∧
    (mL.regs rl ≠ 0 →
      ∃ mF tr, RunsTo sF.code s.code.length (sB.code.length + 5) m mF tr ∧
        mF.regs rl = (if mR.regs rr = 0 then (0 : Int) else 1) ∧
        (mF.regs rl = 0 ∨ mF.regs rl = 1)) := by
  rw [genExpr] at hF
  simp only [newLabel] at hF
  rw [hA] at hF
  try dsimp only at hF
  rw [hB] at hF
  try dsimp only at hF
  obtain ⟨-, h2⟩ := Prod.mk.inj (Except.ok.inj hF)
  have hcode : sF.code = sB.code ++
      [⟨IROp.mov, some rl, some rr⟩, ⟨IROp.kill, some rr, none⟩,
       ⟨IROp.unless, some rl, some s.nlabel⟩, ⟨IROp.imm, some rl, some 1⟩,
       ⟨IROp.label, some s.nlabel, none⟩] := by
    rw [← h2]
    simp [labelI, killR]
  obtain ⟨eL, -⟩ := extExpr lhs _ (some rl) sA hA
  obtain ⟨eR, -⟩ := extExpr rhs _ (some rr) sB hB
  obtain ⟨-, hnl1, -, KL, hcA, hlabKL⟩ := eL
  obtain ⟨-, hnl2, -, KR, hcB, hlabKR⟩ := eR
  have hnl1' : s.nlabel + 1 ≤ sA.nlabel := hnl1
  have hcA' : sA.code = s.code ++ KL := hcA
  have hlabKL' : ∀ x ∈ labelsOf KL, s.nlabel + 1 ≤ x ∧ x < sA.nlabel := hlabKL
  have hcB' : sB.code =
      (sA.code ++ [⟨IROp.unless, some rl, some s.nlabel⟩]) ++ KR := hcB
  have hlabKR' : ∀ x ∈ labelsOf KR, sA.nlabel ≤ x ∧ x < sB.nlabel := hlabKR
  have hfresh : ∀ z ∈ labelsOf sB.code, z ≠ s.nlabel := by
    intro z hz
    rw [hcB', hcA'] at hz
    simp only [labelsOf_append, List.mem_append] at hz
    rcases hz with ((hz | hz) | hz) | hz
    · have := hP z hz
      omega
    · have := (hlabKL' z hz).1
      omega
    · simp [labelsOf] at hz
    · have := (hlabKR' z hz).1
      omega
  have e1 : (IROp.mov == IROp.label) = false := rfl
  have e2 : (IROp.kill == IROp.label) = false := rfl
  have e3 : (IROp.unless == IROp.label) = false := rfl
  have e4 : (IROp.imm == IROp.label) = false := rfl
  have hfind : findLabel sF.code s.nlabel = some (sB.code.length + 4) := by
    rw [hcode, findLabel_append _ _ _ hfresh]
    have hg : findLabel [⟨IROp.mov, some rl, some rr⟩, ⟨IROp.kill, some rr, none⟩,
        ⟨IROp.unless, some rl, some s.nlabel⟩, ⟨IROp.imm, some rl, some 1⟩,
        ⟨IROp.label, some s.nlabel, none⟩] s.nlabel = some 4 := by
      simp [findLabel, List.findIdx?_cons, e1, e2, e3, e4]
    rw [hg]
    simp [Nat.add_comm]
  have hsplit : sF.code = sA.code ++ (⟨IROp.unless, some rl, some s.nlabel⟩ ::
      (KR ++ [⟨IROp.mov, some rl, some rr⟩, ⟨IROp.kill, some rr, none⟩,
       ⟨IROp.unless, some rl, some s.nlabel⟩, ⟨IROp.imm, some rl, some 1⟩,
       ⟨IROp.label, some s.nlabel, none⟩])) := by
    rw [hcode, hcB']
    simp
  have hget1 : sF.code.get? sA.code.length =
      some ⟨IROp.unless, some rl, some s.nlabel⟩ := by
    rw [hsplit]
    have hx := get?_append_add sA.code (⟨IROp.unless, some rl, some s.nlabel⟩ ::
      (KR ++ [⟨IROp.mov, some rl, some rr⟩, ⟨IROp.kill, some rr, none⟩,
       ⟨IROp.unless, some rl, some s.nlabel⟩, ⟨IROp.imm, some rl, some 1⟩,
       ⟨IROp.label, some s.nlabel, none⟩])) 0
    rw [Nat.add_zero] at hx
    rw [hx]
    rfl
  have hgm : sF.code.get? (sB.code.length + 0) =
      some ⟨IROp.mov, some rl, some rr⟩ := by
    rw [hcode, get?_append_add]
    rfl
  have hgk : sF.code.get? (sB.code.length + 1) =
      some ⟨IROp.kill, some rr, none⟩ := by
    rw [hcode, get?_append_add]
    rfl
  have hgu : sF.code.get? (sB.code.length + 2) =
      some ⟨IROp.unless, some rl, some s.nlabel⟩ := by
    rw [hcode, get?_append_add]
    rfl
  have hgi : sF.code.get? (sB.code.length + 3) =
      some ⟨IROp.imm, some rl, some 1⟩ := by
    rw [hcode, get?_append_add]
    rfl
  have hgl : sF.code.get? (sB.code.length + 4) =
      some ⟨IROp.label, some s.nlabel, none⟩ := by
    rw [hcode, get?_append_add]
    rfl
  refine ⟨hcode, ⟨KR, by rw [hcB']; simp⟩, ?_, ?_⟩
  · intro h0
    have s1 : step sF.code sA.code.length mL = some (sB.code.length + 4, mL) := by
      rw [step_unless _ _ _ _ _ hget1, if_pos h0, hfind]
      rfl
    have s2 : step sF.code (sB.code.length + 4) mL =
        some (sB.code.length + 5, mL) := step_label _ _ _ _ hgl
    have hR := (hRunL.comp (RunsTo.single s1)).comp (RunsTo.single s2)
    constructor
    · simpa using hR
    · intro p hp
      rw [List.mem_append] at hp
      rcases hp with hp | hp
      · have := hConL p hp
        omega
      · simp at hp
        rcases hp with hp | hp <;> omega
  · intro h1
    have s1 : step sF.code sA.code.length mL =
        some (sA.code.length + 1, mL) := by
      rw [step_unless _ _ _ _ _ hget1, if_neg h1]
    have hRR := hRunR h1
    have g1 : step sF.code (sB.code.length + 0) mR =
        some (sB.code.length + 0 + 1, mR.setReg rl (mR.regs rr)) :=
      step_mov _ _ _ _ _ hgm
    have g2 : step sF.code (sB.code.length + 1) (mR.setReg rl (mR.regs rr)) =
        some (sB.code.length + 1 + 1, mR.setReg rl (mR.regs rr)) :=
      step_kill _ _ _ _ hgk
    have hval : (mR.setReg rl (mR.regs rr)).regs rl = mR.regs rr := by
      simp [Mach.setReg]
    by_cases h2 : mR.regs rr = 0
    · have g3 : step sF.code (sB.code.length + 2) (mR.setReg rl (mR.regs rr)) =
          some (sB.code.length + 4, mR.setReg rl (mR.regs rr)) := by
        rw [step_unless _ _ _ _ _ hgu, hval, if_pos h2, hfind]
        rfl
      have g4 : step sF.code (sB.code.length + 4) (mR.setReg rl (mR.regs rr)) =
          some (sB.code.length + 5, mR.setReg rl (mR.regs rr)) :=
        step_label _ _ _ _ hgl
      refine ⟨mR.setReg rl (mR.regs rr), _,
        ((((hRunL.comp (RunsTo.single s1)).comp hRR).comp
          (RunsTo.single g1)).comp (RunsTo.single g2)).comp
          ((RunsTo.single g3).comp (RunsTo.single g4)), ?_, ?_⟩
      · rw [hval, if_pos h2]
        exact h2
      · rw [hval, h2]
        exact Or.inl rfl
    · have g3 : step sF.code (sB.code.length + 2) (mR.setReg rl (mR.regs rr)) =
          some (sB.code.length + 3, mR.setReg rl (mR.regs rr)) := by
        rw [step_unless _ _ _ _ _ hgu, hval, if_neg h2]
      have g4 : step sF.code (sB.code.length + 3) (mR.setReg rl (mR.regs rr)) =
          some (sB.code.length + 4, (mR.setReg rl (mR.regs rr)).setReg rl 1) :=
        step_imm _ _ _ _ _ hgi
      have g5 : step sF.code (sB.code.length + 4)
          ((mR.setReg rl (mR.regs rr)).setReg rl 1) =
          some (sB.code.length + 5, (mR.setReg rl (mR.regs rr)).setReg rl 1) :=
        step_label _ _ _ _ hgl
      refine ⟨(mR.setReg rl (mR.regs rr)).setReg rl 1, _,
        (((((hRunL.comp (RunsTo.single s1)).comp hRR).comp
          (RunsTo.single g1)).comp (RunsTo.single g2)).comp
          (RunsTo.single g3)).comp
          ((RunsTo.single g4).comp (RunsTo.single g5)), ?_, ?_⟩
      · rw [if_neg h2]
        simp [Mach.setReg]
      · right
        simp [Mach.setReg]


theorem logor_glue
    (lhs rhs : NodeG) (ty : TyG) (off ss : Nat) (s : GenState)
    (rl rr : Nat) (sA sB sF : GenState)
    (m mL mR : Mach) (trL trR : List Nat)
    (hA : genExpr lhs { s with nlabel := s.nlabel + 1 + 1 } = .ok (some rl, sA))
    (hB : genExpr rhs (labelI (some s.nlabel)
      (emit .jmp (some (s.nlabel + 1)) none
        (emit .imm (some rl) (some 1)
          (emit .unless (some rl) (some s.nlabel) sA)))) = .ok (some rr, sB))
    (hF : genExpr (NodeG.mk (.logor lhs rhs) ty off ss) s = .ok (some rl, sF))
    (hP : ∀ z ∈ labelsOf s.code, z < s.nlabel)
    (hRunL : RunsTo sF.code s.code.length sA.code.length m mL trL)
    (hConL : Confined trL s.code.length sA.code.length)
    (hRunR : mL.regs rl = 0 →
      RunsTo sF.code (sA.code.length + 4) sB.code.length mL mR trR) :
    sF.code = sB.code ++
      [⟨.mov, some rl, some rr⟩, ⟨.kill, some rr, none⟩,
       ⟨.unless, some rl, some (s.nlabel + 1)⟩, ⟨.imm, some rl, some 1⟩,
       ⟨.label, some (s.nlabel + 1), none⟩] ∧
    (∃ K, sB.code = sA.code ++
      (⟨.unless, some rl, some s.nlabel⟩ :: ⟨.imm, some rl, some 1⟩ ::
       ⟨.jmp, some (s.nlabel + 1), none⟩ :: ⟨.label, some s.nlabel, none⟩ :: K)) ∧
    (mL.regs rl ≠ 0 →
      RunsTo sF.code s.code.length (sB.code.length + 5) m (mL.setReg rl 1)
        (trL ++ [sA.code.length, sA.code.length + 1, sA.code.length + 2,
          sB.code.length + 4]) ∧
      (∀ p ∈ trL ++ [sA.code.length, sA.code.length + 1, sA.code.length + 2,
          sB.code.length + 4],
        p ≤ sA.code.length + 3 ∨ sB.code.length ≤ p) ∧
      (mL.setReg rl 1).regs rl = 1) ∧
    (mL.regs rl = 0 →
      ∃ mF tr, RunsTo sF.code s.code.length (sB.code.length + 5) m mF tr ∧
        mF.regs rl = (if mR.regs rr = 0 then (0 : Int) else 1) ∧
        (mF.regs rl = 0 ∨ mF.regs rl = 1)) := by
  rw [genExpr] at hF
  simp only [newLabel] at hF
  rw [hA] at hF
  try dsimp only at hF
  rw [hB] at hF
  try dsimp only at hF
  obtain ⟨-, h2⟩ := Prod.mk.inj (Except.ok.inj hF)
  have hcode : sF.code = sB.code ++
      [⟨IROp.mov, some rl, some rr⟩, ⟨IROp.kill, some rr, none⟩,
       ⟨IROp.unless, some rl, some (s.nlabel + 1)⟩, ⟨IROp.imm, some rl, some 1⟩,
       ⟨IROp.label, some (s.nlabel + 1), none⟩] := by
    rw [← h2]
    simp [labelI, killR]
  obtain ⟨eL, -⟩ := extExpr lhs _ (some rl) sA hA
  obtain ⟨eR, -⟩ := extExpr rhs _ (some rr) sB hB
  obtain ⟨-, hnl1, -, KL, hcA, hlabKL⟩ := eL
  obtain ⟨-, hnl2, -, KR, hcB, hlabKR⟩ := eR
  have hnl1' : s.nlabel + 1 + 1 ≤ sA.nlabel := hnl1
  have hcA' : sA.code = s.code ++ KL := hcA
  have hlabKL' : ∀ x ∈ labelsOf KL, s.nlabel + 1 + 1 ≤ x ∧ x < sA.nlabel := hlabKL
  have hlabKR' : ∀ x ∈ labelsOf KR, sA.nlabel ≤ x ∧ x < sB.nlabel := hlabKR
  have hcB' : sB.code = sA.code ++
      ([⟨IROp.unless, some rl, some s.nlabel⟩, ⟨IROp.imm, some rl, some 1⟩,
        ⟨IROp.jmp, some (s.nlabel + 1), none⟩,
        ⟨IROp.label, some s.nlabel, none⟩] ++ KR) := by
    rw [hcB]
    simp [labelI]
  have hfreshA : ∀ z ∈ labelsOf sA.code, z ≠ s.nlabel := by
    intro z hz
    rw [hcA'] at hz
    simp only [labelsOf_append, List.mem_append] at hz
    rcases hz with hz | hz
    · have := hP z hz
      omega
    · have := (hlabKL' z hz).1
      omega
  have hfreshY : ∀ z ∈ labelsOf sB.code, z ≠ s.nlabel + 1 := by
    intro z hz
    rw [hcB', hcA'] at hz
    simp only [labelsOf_append, List.mem_append] at hz
    rcases hz with (hz | hz) | hz | hz
    · have := hP z hz
      omega
    · have := (hlabKL' z hz).1
      omega
    · simp [labelsOf] at hz
      omega
    · have := (hlabKR' z hz).1
      omega
  have e1 : (IROp.mov == IROp.label) = false := rfl
  have e2 : (IROp.kill == IROp.label) = false := rfl
  have e3 : (IROp.unless == IROp.label) = false := rfl
  have e4 : (IROp.imm == IROp.label) = false := rfl
  have e5 : (IROp.jmp == IROp.label) = false := rfl
  have hfindY : findLabel sF.code (s.nlabel + 1) = some (sB.code.length + 4) := by
    rw [hcode, findLabel_append _ _ _ hfreshY]
    have hg : findLabel [⟨IROp.mov, some rl, some rr⟩, ⟨IROp.kill, some rr, none⟩,
        ⟨IROp.unless, some rl, some (s.nlabel + 1)⟩, ⟨IROp.imm, some rl, some 1⟩,
        ⟨IROp.label, some (s.nlabel + 1), none⟩] (s.nlabel + 1) = some 4 := by
      simp [findLabel, List.findIdx?_cons, e1, e2, e3, e4]
    rw [hg]
    simp [Nat.add_comm]
  have hsplit : sF.code = sA.code ++
      (⟨IROp.unless, some rl, some s.nlabel⟩ :: ⟨IROp.imm, some rl, some 1⟩ ::
       ⟨IROp.jmp, some (s.nlabel + 1), none⟩ ::
       ⟨IROp.label, some s.nlabel, none⟩ :: (KR ++
      [⟨IROp.mov, some rl, some rr⟩, ⟨IROp.kill, some rr, none⟩,
       ⟨IROp.unless, some rl, some (s.nlabel + 1)⟩, ⟨IROp.imm, some rl, some 1⟩,
       ⟨IROp.label, some (s.nlabel + 1), none⟩])) := by
    rw [hcode, hcB']
    simp
  have hfindX : findLabel sF.code s.nlabel = some (sA.code.length + 3) := by
    rw [hsplit, findLabel_append _ _ _ hfreshA]
    have hg : findLabel (⟨IROp.unless, some rl, some s.nlabel⟩ ::
        ⟨IROp.imm, some rl, some 1⟩ ::
        ⟨IROp.jmp, some (s.nlabel + 1), none⟩ ::
        ⟨IROp.label, some s.nlabel, none⟩ :: (KR ++
        [⟨IROp.mov, some rl, some rr⟩, ⟨IROp.kill, some rr, none⟩,
         ⟨IROp.unless, some rl, some (s.nlabel + 1)⟩,
         ⟨IROp.imm, some rl, some 1⟩,
         ⟨IROp.label, some (s.nlabel + 1), none⟩])) s.nlabel = some 3 := by
      simp [findLabel, List.findIdx?_cons, e3, e4, e5]
    rw [hg]
    simp [Nat.add_comm]
  have hget0 : sF.code.get? sA.code.length =
      some ⟨IROp.unless, some rl, some s.nlabel⟩ := by
    rw [hsplit]
    have hx := get?_append_add sA.code
      (⟨IROp.unless, some rl, some s.nlabel⟩ :: ⟨IROp.imm, some rl, some 1⟩ ::
       ⟨IROp.jmp, some (s.nlabel + 1), none⟩ ::
       ⟨IROp.label, some s.nlabel, none⟩ :: (KR ++
      [⟨IROp.mov, some rl, some rr⟩, ⟨IROp.kill, some rr, none⟩,
       ⟨IROp.unless, some rl, some (s.nlabel + 1)⟩, ⟨IROp.imm, some rl, some 1⟩,
       ⟨IROp.label, some (s.nlabel + 1), none⟩])) 0
    simpa using hx
  have hget1 : sF.code.get? (sA.code.length + 1) =
      some ⟨IROp.imm, some rl, some 1⟩ := by
    rw [hsplit, get?_append_add]
    rfl
  have hget2 : sF.code.get? (sA.code.length + 2) =
      some ⟨IROp.jmp, some (s.nlabel + 1), none⟩ := by
    rw [hsplit, get?_append_add]
    rfl
  have hget3 : sF.code.get? (sA.code.length + 3) =
      some ⟨IROp.label, some s.nlabel, none⟩ := by
    rw [hsplit, get?_append_add]
    rfl
  have hgm : sF.code.get? (sB.code.length + 0) =
      some ⟨IROp.mov, some rl, some rr⟩ := by
    rw [hcode, get?_append_add]
    rfl
  have hgk : sF.code.get? (sB.code.length + 1) =
      some ⟨IROp.kill, some rr, none⟩ := by
    rw [hcode, get?_append_add]
    rfl
  have hgu : sF.code.get? (sB.code.length + 2) =
      some ⟨IROp.unless, some rl, some (s.nlabel + 1)⟩ := by
    rw [hcode, get?_append_add]
    rfl
  have hgi : sF.code.get? (sB.code.length + 3) =
      some ⟨IROp.imm, some rl, some 1⟩ := by
    rw [hcode, get?_append_add]
    rfl
  have hgl : sF.code.get? (sB.code.length + 4) =
      some ⟨IROp.label, some (s.nlabel + 1), none⟩ := by
    rw [hcode, get?_append_add]
    rfl
  refine ⟨hcode, ⟨KR, by rw [hcB']; simp⟩, ?_, ?_⟩
  · intro h1
    have s1 : step sF.code sA.code.length mL =
        some (sA.code.length + 1, mL) := by
      rw [step_unless _ _ _ _ _ hget0, if_neg h1]
    have s2 : step sF.code (sA.code.length + 1) mL =
        some (sA.code.length + 1 + 1, mL.setReg rl 1) :=
      step_imm _ _ _ _ _ hget1
    have s3 : step sF.code (sA.code.length + 2) (mL.setReg rl 1) =
        some (sB.code.length + 4, mL.setReg rl 1) := by
      rw [step_jmp _ _ _ _ hget2, hfindY]
      rfl
    have s4 : step sF.code (sB.code.length + 4) (mL.setReg rl 1) =
        some (sB.code.length + 5, mL.setReg rl 1) :=
      step_label _ _ _ _ hgl
    have hR := (((hRunL.comp (RunsTo.single s1)).comp
      (RunsTo.single s2)).comp (RunsTo.single s3)).comp (RunsTo.single s4)
    refine ⟨by simpa using hR, ?_, by simp [Mach.setReg]⟩
    intro p hp
    rw [List.mem_append] at hp
    rcases hp with hp | hp
    · have := hConL p hp
      omega
    · simp at hp
      rcases hp with hp | hp | hp | hp <;> omega
  · intro h0
    have s1 : step sF.code sA.code.length mL =
        some (sA.code.length + 3, mL) := by
      rw [step_unless _ _ _ _ _ hget0, if_pos h0, hfindX]
      rfl
    have s2 : step sF.code (sA.code.length + 3) mL =
        some (sA.code.length + 4, mL) :=
      step_label _ _ _ _ hget3
    have hRR := hRunR h0
    have g1 : step sF.code (sB.code.length + 0) mR =
        some (sB.code.length + 0 + 1, mR.setReg rl (mR.regs rr)) :=
      step_mov _ _ _ _ _ hgm
    have g2 : step sF.code (sB.code.length + 1) (mR.setReg rl (mR.regs rr)) =
        some (sB.code.length + 1 + 1, mR.setReg rl (mR.regs rr)) :=
      step_kill _ _ _ _ hgk
    have hval : (mR.setReg rl (mR.regs rr)).regs rl = mR.regs rr := by
      simp [Mach.setReg]
    by_cases h2 : mR.regs rr = 0
    · have g3 : step sF.code (sB.code.length + 2) (mR.setReg rl (mR.regs rr)) =
          some (sB.code.length + 4, mR.setReg rl (mR.regs rr)) := by
        rw [step_unless _ _ _ _ _ hgu, hval, if_pos h2, hfindY]
        rfl
      have g4 : step sF.code (sB.code.length + 4) (mR.setReg rl (mR.regs rr)) =
          some (sB.code.length + 5, mR.setReg rl (mR.regs rr)) :=
        step_label _ _ _ _ hgl
      refine ⟨mR.setReg rl (mR.regs rr), _,
        (((((hRunL.comp (RunsTo.single s1)).comp (RunsTo.single s2)).comp
          hRR).comp (RunsTo.single g1)).comp (RunsTo.single g2)).comp
          ((RunsTo.single g3).comp (RunsTo.single g4)), ?_, ?_⟩
      · rw [hval, if_pos h2]
        exact h2
      · rw [hval, h2]
        exact Or.inl rfl
    · have g3 : step sF.code (sB.code.length + 2) (mR.setReg rl (mR.regs rr)) =
          some (sB.code.length + 3, mR.setReg rl (mR.regs rr)) := by
        rw [step_unless _ _ _ _ _ hgu, hval, if_neg h2]
      have g4 : step sF.code (sB.code.length + 3) (mR.setReg rl (mR.regs rr)) =
          some (sB.code.length + 4, (mR.setReg rl (mR.regs rr)).setReg rl 1) :=
        step_imm _ _ _ _ _ hgi
      have g5 : step sF.code (sB.code.length + 4)
          ((mR.setReg rl (mR.regs rr)).setReg rl 1) =
          some (sB.code.length + 5, (mR.setReg rl (mR.regs rr)).setReg rl 1) :=
        step_label _ _ _ _ hgl
      refine ⟨(mR.setReg rl (mR.regs rr)).setReg rl 1, _,
        ((((((hRunL.comp (RunsTo.single s1)).comp (RunsTo.single s2)).comp
          hRR).comp (RunsTo.single g1)).comp (RunsTo.single g2)).comp
          (RunsTo.single g3)).comp
          ((RunsTo.single g4).comp (RunsTo.single g5)), ?_, ?_⟩
      · rw [if_neg h2]
        simp [Mach.setReg]
      · right
        simp [Mach.setReg]

/-- C3: short-circuit lowering of logical AND/OR.  For every `Logand` or
`Logor` node, `gen_expr` emits the left operand's code, a conditional
branch, and (behind the branch) the right operand's code followed by the
normalising glue `MOV/KILL/UNLESS/IMM 1/LABEL`.  Running the emitted
block: for AND, when the left value is `0` control jumps straight to the
landing label without executing any instruction of the right-operand
region and the result register holds `0`; when it is nonzero the right
operand runs and the result is `0` or `1` by the final `UNLESS`/`IMM`.
For OR, when the left value is nonzero the result register is set to `1`
and control jumps over the right-operand region; when it is `0` the right
operand runs and the result is again exactly `0` or `1`. -/
theorem short_circuit_and_or_lowering :
    (∀ (lhs rhs : NodeG) (ty : TyG) (off ss : Nat) (s : GenState)
      (rl rr : Nat) (sA sB sF : GenState)
      (m mL mR : Mach) (trL trR : List Nat),
      genExpr lhs { s with nlabel := s.nlabel + 1 } = .ok (some rl, sA) →
      genExpr rhs (emit .unless (some rl) (some s.nlabel) sA) =
        .ok (some rr, sB) →
      genExpr (NodeG.mk (.logand lhs rhs) ty off ss) s = .ok (some rl, sF) →
      (∀ z ∈ labelsOf s.code, z < s.nlabel) →
      RunsTo sF.code s.code.length sA.code.length m mL trL →
      Confined trL s.code.length sA.code.length →
      (mL.regs rl ≠ 0 →
        RunsTo sF.code (sA.code.length + 1) sB.code.length mL mR trR) →
      sF.code = sB.code ++
        [⟨.mov, some rl, some rr⟩, ⟨.kill, some rr, none⟩,
         ⟨.unless, some rl, some s.nlabel⟩, ⟨.imm, some rl, some 1⟩,
         ⟨.label, some s.nlabel, none⟩] ∧
      (∃ K, sB.code = sA.code ++ ⟨.unless, some rl, some s.nlabel⟩ :: K) ∧
      (mL.regs rl = 0 →
        RunsTo sF.code s.code.length (sB.code.length + 5) m mL
          (trL ++ [sA.code.length, sB.code.length + 4]) ∧
        ∀ p ∈ trL ++ [sA.code.length, sB.code.length + 4],
          p ≤ sA.code.length ∨ sB.code.length ≤ p) ∧
      (mL.regs rl ≠ 0 →
        ∃ mF tr, RunsTo sF.code s.code.length (sB.code.length + 5) m mF tr ∧
          mF.regs rl = (if mR.regs rr = 0 then (0 : Int) else 1) ∧
          (mF.regs rl = 0 ∨ mF.regs rl = 1))) ∧
    (∀ (lhs rhs : NodeG) (ty : TyG) (off ss : Nat) (s : GenState)
      (rl rr : Nat) (sA sB sF : GenState)
      (m mL mR : Mach) (trL trR : List Nat),
      genExpr lhs { s with nlabel := s.nlabel + 1 + 1 } = .ok (some rl, sA) →
      genExpr rhs (labelI (some s.nlabel)
        (emit .jmp (some (s.nlabel + 1)) none
          (emit .imm (some rl) (some 1)
            (emit .unless (some rl) (some s.nlabel) sA)))) =
        .ok (some rr, sB) →
      genExpr (NodeG.mk (.logor lhs rhs) ty off ss) s = .ok (some rl, sF) →
      (∀ z ∈ labelsOf s.code, z < s.nlabel) →
      RunsTo sF.code s.code.length sA.code.length m mL trL →
      Confined trL s.code.length sA.code.length →
      (mL.regs rl = 0 →
        RunsTo sF.code (sA.code.length + 4) sB.code.length mL mR trR) →
      sF.code = sB.code ++
        [⟨.mov, some rl, some rr⟩, ⟨.kill, some rr, none⟩,
         ⟨.unless, some rl, some (s.nlabel + 1)⟩, ⟨.imm, some rl, some 1⟩,
         ⟨.label, some (s.nlabel + 1), none⟩] ∧
      (∃ K, sB.code = sA.code ++
        (⟨.unless, some rl, some s.nlabel⟩ :: ⟨.imm, some rl, some 1⟩ ::
         ⟨.jmp, some (s.nlabel + 1), none⟩ ::
         ⟨.label, some s.nlabel, none⟩ :: K)) ∧
      (mL.regs rl ≠ 0 →
        RunsTo sF.code s.code.length (sB.code.length + 5) m (mL.setReg rl 1)
          (trL ++ [sA.code.length, sA.code.length + 1, sA.code.length + 2,
            sB.code.length + 4]) ∧
        (∀ p ∈ trL ++ [sA.code.length, sA.code.length + 1,
            sA.code.length + 2, sB.code.length + 4],
          p ≤ sA.code.length + 3 ∨ sB.code.length ≤ p) ∧
        (mL.setReg rl 1).regs rl = 1) ∧
      (mL.regs rl = 0 →
        ∃ mF tr, RunsTo sF.code s.code.length (sB.code.length + 5) m mF tr ∧
          mF.regs rl = (if mR.regs rr = 0 then (0 : Int) else 1) ∧
          (mF.regs rl = 0 ∨ mF.regs rl = 1))) :=
  ⟨fun lhs rhs ty off ss s rl rr sA sB sF m mL mR trL trR
      hA hB hF hP hRunL hConL hRunR =>
    logand_glue lhs rhs ty off ss s rl rr sA sB sF m mL mR trL trR
      hA hB hF hP hRunL hConL hRunR,
   fun lhs rhs ty off ss s rl rr sA sB sF m mL mR trL trR
      hA hB hF hP hRunL hConL hRunR =>
    logor_glue lhs rhs ty off ss s rl rr sA sB sF m mL mR trL trR
      hA hB hF hP hRunL hConL hRunR⟩

/-- C3 witness: `0 && 5` jumps from the first `UNLESS` (pc 1) straight
to the landing label (pc 7), never touching the right operand's region,
and ends with register 1 holding `0`; `3 || 5` sets register 1 to `1`
and jumps over the right operand's region (pcs 4–5), ending with
register 1 holding `1`. -/
theorem short_circuit_and_or_lowering_witness :
    (RunsTo andSF.code 0 8 m0 (m0.setReg 1 0) [0, 1, 7] ∧
     (m0.setReg 1 0).regs 1 = 0) ∧
    (RunsTo orSF.code 0 11 m0 ((m0.setReg 1 3).setReg 1 1) [0, 1, 2, 3, 10] ∧
     ((m0.setReg 1 3).setReg 1 1).regs 1 = 1) := by
  constructor
  · have hA : genExpr (numN 0) { s0 with nlabel := s0.nlabel + 1 } =
        .ok (some 1, (⟨2, 1, [⟨.imm, some 1, some 0⟩], [1]⟩ : GenState)) := by
      simp [genExpr, numN, newReg, s0, intToUsize, emit]
    have hB : genExpr (numN 5) (emit .unless (some 1) (some 0)
        (⟨2, 1, [⟨.imm, some 1, some 0⟩], [1]⟩ : GenState)) =
        .ok (some 2, (⟨3, 1, [⟨.imm, some 1, some 0⟩, ⟨.unless, some 1, some 0⟩,
          ⟨.imm, some 2, some 5⟩], [1, 2]⟩ : GenState)) := by
      simp [genExpr, numN, newReg, intToUsize, emit]
    have hF : genExpr (NodeG.mk (.logand (numN 0) (numN 5)) intTyG 0 0) s0 =
        .ok (some 1, andSF) := by
      simp [genExpr, numN, newReg, newLabel, s0, intToUsize, emit, killR,
        labelI, andSF]
    have hP : ∀ z ∈ labelsOf s0.code, z < s0.nlabel := by
      simp [labelsOf, s0]
    have hRunL : RunsTo andSF.code 0 1 m0 (m0.setReg 1 0) [0] := ⟨1, rfl⟩
    have hConL : Confined [0] 0 1 := by
      intro p hp
      simp at hp
      omega
    have hRunR : (m0.setReg 1 0).regs 1 ≠ 0 →
        RunsTo andSF.code (1 + 1) 3 (m0.setReg 1 0) m0 [] :=
      fun h => absurd rfl h
    have h := short_circuit_and_or_lowering.1 (numN 0) (numN 5) intTyG 0 0 s0
      1 2 ⟨2, 1, [⟨.imm, some 1, some 0⟩], [1]⟩
      ⟨3, 1, [⟨.imm, some 1, some 0⟩, ⟨.unless, some 1, some 0⟩,
        ⟨.imm, some 2, some 5⟩], [1, 2]⟩ andSF m0 (m0.setReg 1 0) m0 [0] []
      hA hB hF hP hRunL hConL hRunR
    exact ⟨(h.2.2.1 rfl).1, rfl⟩
  · have hA : genExpr (numN 3) { s0 with nlabel := s0.nlabel + 1 + 1 } =
        .ok (some 1, (⟨2, 2, [⟨.imm, some 1, some 3⟩], [1]⟩ : GenState)) := by
      simp [genExpr, numN, newReg, s0, intToUsize, emit]
    have hB : genExpr (numN 5) (labelI (some 0)
        (emit .jmp (some 1) none
          (emit .imm (some 1) (some 1)
            (emit .unless (some 1) (some 0)
              (⟨2, 2, [⟨.imm, some 1, some 3⟩], [1]⟩ : GenState))))) =
        .ok (some 2, (⟨3, 2, [⟨.imm, some 1, some 3⟩, ⟨.unless, some 1, some 0⟩,
          ⟨.imm, some 1, some 1⟩, ⟨.jmp, some 1, none⟩, ⟨.label, some 0, none⟩,
          ⟨.imm, some 2, some 5⟩], [1, 2]⟩ : GenState)) := by
      simp [genExpr, numN, newReg, intToUsize, emit, labelI]
    have hF : genExpr (NodeG.mk (.logor (numN 3) (numN 5)) intTyG 0 0) s0 =
        .ok (some 1, orSF) := by
      simp [genExpr, numN, newReg, newLabel, s0, intToUsize, emit, killR,
        labelI, orSF]
    have hP : ∀ z ∈ labelsOf s0.code, z < s0.nlabel := by
      simp [labelsOf, s0]
    have hRunL : RunsTo orSF.code 0 1 m0 (m0.setReg 1 3) [0] := ⟨1, rfl⟩
    have hConL : Confined [0] 0 1 := by
      intro p hp
      simp at hp
      omega
    have hne : (m0.setReg 1 3).regs 1 ≠ 0 := by decide
    have hRunR : (m0.setReg 1 3).regs 1 = 0 →
        RunsTo orSF.code (1 + 4) 6 (m0.setReg 1 3) m0 [] :=
      fun h => absurd h hne
    have h := short_circuit_and_or_lowering.2 (numN 3) (numN 5) intTyG 0 0 s0
      1 2 ⟨2, 2, [⟨.imm, some 1, some 3⟩], [1]⟩
      ⟨3, 2, [⟨.imm, some 1, some 3⟩, ⟨.unless, some 1, some 0⟩,
        ⟨.imm, some 1, some 1⟩, ⟨.jmp, some 1, none⟩, ⟨.label, some 0, none⟩,
        ⟨.imm, some 2, some 5⟩], [1, 2]⟩ orSF m0 (m0.setReg 1 3) m0 [0] []
      hA hB hF hP hRunL hConL hRunR
    exact ⟨(h.2.2.1 hne).1, (h.2.2.1 hne).2.2⟩

end GenIr
